import Mathlib

/-!
Verification of the conversation-orchestration core of the `clai` CLI
assistant: the agent loop (`src/model.ts`, class `Model`), the prompt-cache
annotator (both the simple strategy of `src/model.ts` and the token-counting
strategy of the earlier `model.ts` revision kept in the repository), and the
session store (`src/commands/common-args.ts`: `loadSession`,
`stripCacheControlMarkers`, `saveSession`).

The embedding models JSON numbers as integers (tool inputs are treated as
opaque JSON trees; no arithmetic is performed on them) and models the
asynchronous remote model as an oracle: a finite list of turn responses
consumed one per request.
-/

namespace Clai

/-- A JSON value, as produced by `JSON.parse` and consumed by
`JSON.stringify`.  Object fields keep insertion order. -/
inductive Json where
  | null : Json
  | bool (b : Bool) : Json
  | num (n : Int) : Json
  | str (s : String) : Json
  | arr (elems : List Json) : Json
  | obj (fields : List (String × Json)) : Json

mutual

/-- Decidable equality for `Json` (the derive handler does not support the
nested `List` occurrences). -/
def Json.decEq : (a b : Json) → Decidable (a = b)
  | .null, .null => isTrue rfl
  | .bool x, .bool y =>
    if h : x = y then isTrue (by rw [h]) else isFalse (by simp [h])
  | .num x, .num y =>
    if h : x = y then isTrue (by rw [h]) else isFalse (by simp [h])
  | .str x, .str y =>
    if h : x = y then isTrue (by rw [h]) else isFalse (by simp [h])
  | .arr xs, .arr ys =>
    match Json.decEqList xs ys with
    | isTrue h => isTrue (by rw [h])
    | isFalse h => isFalse (by simp [h])
  | .obj xs, .obj ys =>
    match Json.decEqFields xs ys with
    | isTrue h => isTrue (by rw [h])
    | isFalse h => isFalse (by simp [h])
  | .null, .bool _ => isFalse (fun h => Json.noConfusion h)
  | .null, .num _ => isFalse (fun h => Json.noConfusion h)
  | .null, .str _ => isFalse (fun h => Json.noConfusion h)
  | .null, .arr _ => isFalse (fun h => Json.noConfusion h)
  | .null, .obj _ => isFalse (fun h => Json.noConfusion h)
  | .bool _, .null => isFalse (fun h => Json.noConfusion h)
  | .bool _, .num _ => isFalse (fun h => Json.noConfusion h)
  | .bool _, .str _ => isFalse (fun h => Json.noConfusion h)
  | .bool _, .arr _ => isFalse (fun h => Json.noConfusion h)
  | .bool _, .obj _ => isFalse (fun h => Json.noConfusion h)
  | .num _, .null => isFalse (fun h => Json.noConfusion h)
  | .num _, .bool _ => isFalse (fun h => Json.noConfusion h)
  | .num _, .str _ => isFalse (fun h => Json.noConfusion h)
  | .num _, .arr _ => isFalse (fun h => Json.noConfusion h)
  | .num _, .obj _ => isFalse (fun h => Json.noConfusion h)
  | .str _, .null => isFalse (fun h => Json.noConfusion h)
  | .str _, .bool _ => isFalse (fun h => Json.noConfusion h)
  | .str _, .num _ => isFalse (fun h => Json.noConfusion h)
  | .str _, .arr _ => isFalse (fun h => Json.noConfusion h)
  | .str _, .obj _ => isFalse (fun h => Json.noConfusion h)
  | .arr _, .null => isFalse (fun h => Json.noConfusion h)
  | .arr _, .bool _ => isFalse (fun h => Json.noConfusion h)
  | .arr _, .num _ => isFalse (fun h => Json.noConfusion h)
  | .arr _, .str _ => isFalse (fun h => Json.noConfusion h)
  | .arr _, .obj _ => isFalse (fun h => Json.noConfusion h)
  | .obj _, .null => isFalse (fun h => Json.noConfusion h)
  | .obj _, .bool _ => isFalse (fun h => Json.noConfusion h)
  | .obj _, .num _ => isFalse (fun h => Json.noConfusion h)
  | .obj _, .str _ => isFalse (fun h => Json.noConfusion h)
  | .obj _, .arr _ => isFalse (fun h => Json.noConfusion h)

/-- Decidable equality for lists of `Json`. -/
def Json.decEqList : (a b : List Json) → Decidable (a = b)
  | [], [] => isTrue rfl
  | [], _ :: _ => isFalse (by simp)
  | _ :: _, [] => isFalse (by simp)
  | x :: xs, y :: ys =>
    match Json.decEq x y, Json.decEqList xs ys with
    | isTrue h1, isTrue h2 => isTrue (by rw [h1, h2])
    | isFalse h1, _ => isFalse (by simp [h1])
    | _, isFalse h2 => isFalse (by simp [h2])

/-- Decidable equality for JSON object field lists. -/
def Json.decEqFields : (a b : List (String × Json)) → Decidable (a = b)
  | [], [] => isTrue rfl
  | [], _ :: _ => isFalse (by simp)
  | _ :: _, [] => isFalse (by simp)
  | (s, x) :: xs, (t, y) :: ys =>
    if hs : s = t then
      match Json.decEq x y, Json.decEqFields xs ys with
      | isTrue h1, isTrue h2 => isTrue (by rw [hs, h1, h2])
      | isFalse h1, _ => isFalse (by simp [h1])
      | _, isFalse h2 => isFalse (by simp [h2])
    else isFalse (by simp [hs])

end

instance : DecidableEq Json := Json.decEq

/-- Message role (`'user' | 'assistant'`). -/
inductive Role where
  | user : Role
  | assistant : Role
deriving DecidableEq

/-- A content block inside a message, the tagged union of `text`,
`tool_use` and `tool_result` blocks.  Every JavaScript block object can in
addition carry a `cache_control: { type: 'ephemeral' }` property (the cache
annotator writes it onto the last block regardless of its tag), so each
constructor carries a `Bool` recording whether that property is present. -/
inductive ContentBlock where
  | text (text : String) (cache_control : Bool)
  | tool_use (id : String) (name : String) (input : List (String × Json))
      (cache_control : Bool)
  | tool_result (tool_use_id : String) (content : String)
      (is_error : Option Bool) (cache_control : Bool)
deriving DecidableEq

/-- Message content: either a bare string or a list of content blocks
(`content: string | ContentBlock[]`). -/
inductive MessageContent where
  | str (s : String) : MessageContent
  | blocks (bs : List ContentBlock) : MessageContent
deriving DecidableEq

/-- `Anthropic.MessageParam`: a role together with its content. -/
structure Message where
  role : Role
  content : MessageContent
deriving DecidableEq

/-- A system-prompt segment (`TextBlock = Anthropic.TextBlockParam &
\x7b cache_control?: CacheControl \x7d`); `type` is always `'text'`. -/
structure TextBlock where
  text : String
  cache_control : Bool
deriving DecidableEq

/-- The state carried in a `MessageResult` (`\x7b messages, systemPrompts \x7d`). -/
structure SessionState where
  messages : List Message
  systemPrompts : List TextBlock
deriving DecidableEq

/-- `MessageResult`: the persisted session unit `\x7b state: ... \x7d`. -/
structure MessageResult where
  state : SessionState
deriving DecidableEq

/-! ## JSON.stringify

Used by `estimateTokens` (on `tool_use` inputs) in the token-counting cache
strategy.  Compact output, string escaping for the characters JavaScript
always escapes. -/

/-- Escape one character as `JSON.stringify` does (quotes, backslash and the
common control characters; other characters are emitted verbatim). -/
def escapeChar (c : Char) : String :=
  if c = Char.ofNat 34 then "\\\""
  else if c = Char.ofNat 92 then "\\\\"
  else if c = Char.ofNat 10 then "\\n"
  else if c = Char.ofNat 9 then "\\t"
  else if c = Char.ofNat 13 then "\\r"
  else String.singleton c

/-- Quote a string as a JSON string literal. -/
def quoteString (s : String) : String :=
  "\"" ++ String.join (s.toList.map escapeChar) ++ "\""

mutual

/-- `JSON.stringify` with no spacing. -/
def Json.stringify : Json → String
  | .null => "null"
  | .bool true => "true"
  | .bool false => "false"
  | .num n => toString n
  | .str s => quoteString s
  | .arr xs => "[" ++ Json.stringifyList xs ++ "]"
  | .obj fs => "\x7b" ++ Json.stringifyFields fs ++ "\x7d"

/-- Comma-separated serialization of array elements. -/
def Json.stringifyList : List Json → String
  | [] => ""
  | [x] => Json.stringify x
  | x :: y :: xs => Json.stringify x ++ "," ++ Json.stringifyList (y :: xs)

/-- Comma-separated serialization of object fields. -/
def Json.stringifyFields : List (String × Json) → String
  | [] => ""
  | [(k, v)] => quoteString k ++ ":" ++ Json.stringify v
  | (k, v) :: f :: fs =>
    quoteString k ++ ":" ++ Json.stringify v ++ "," ++ Json.stringifyFields (f :: fs)

end

/-! ## Serializing a session to JSON

This is the value `JSON.stringify(cleanedResult, null, '\t')` writes in
`saveSession`; pretty-printing whitespace does not affect the parsed value,
so the file is modelled as the JSON tree itself. -/

/-- The `cache_control: \x7b type: 'ephemeral' \x7d` marker object. -/
def ccJson : Json := .obj [("type", .str "ephemeral")]

/-- JSON fields contributed by a present `cache_control` property. -/
def ccFields (cc : Bool) : List (String × Json) :=
  if cc then [("cache_control", ccJson)] else []

/-- Serialize one content block. -/
def ContentBlock.toJson : ContentBlock → Json
  | .text s cc =>
    .obj ([("type", .str "text"), ("text", .str s)] ++ ccFields cc)
  | .tool_use id nm input cc =>
    .obj ([("type", .str "tool_use"), ("id", .str id), ("name", .str nm),
      ("input", .obj input)] ++ ccFields cc)
  | .tool_result tid c ie cc =>
    .obj ([("type", .str "tool_result"), ("tool_use_id", .str tid),
      ("content", .str c)] ++
      (match ie with
       | some b => [("is_error", .bool b)]
       | none => []) ++ ccFields cc)

/-- Serialize a role. -/
def Role.toJson : Role → Json
  | .user => .str "user"
  | .assistant => .str "assistant"

/-- Serialize message content. -/
def MessageContent.toJson : MessageContent → Json
  | .str s => .str s
  | .blocks bs => .arr (bs.map ContentBlock.toJson)

/-- Serialize a message. -/
def Message.toJson (m : Message) : Json :=
  .obj [("role", m.role.toJson), ("content", m.content.toJson)]

/-- Serialize a system-prompt segment. -/
def TextBlock.toJson (p : TextBlock) : Json :=
  .obj ([("type", .str "text"), ("text", .str p.text)] ++ ccFields p.cache_control)

/-- Serialize a whole `MessageResult` (the session-file shape
`\x7b state: \x7b messages, systemPrompts \x7d \x7d`). -/
def MessageResult.toJson (r : MessageResult) : Json :=
  .obj [("state", .obj [
    ("messages", .arr (r.state.messages.map Message.toJson)),
    ("systemPrompts", .arr (r.state.systemPrompts.map TextBlock.toJson))])]

/-! ## The zod session schema (`MessageResultSchema.safeParse`)

zod objects in default mode accept extra keys and strip them; a failing
field fails the whole object; `z.union` tries the options in order. -/

/-- First field with the given key (JavaScript objects have unique keys, so
first-match lookup is exact). -/
def lookupField : List (String × Json) → String → Option Json
  | [], _ => none
  | (k, v) :: fs, key => if k = key then some v else lookupField fs key

/-- `TextBlockSchema`: `type: 'text'`, `text: string`, optional
`cache_control: \x7b type: 'ephemeral' \x7d`. -/
def parseTextBlock : Json → Option TextBlock
  | .obj fs =>
    match lookupField fs "type", lookupField fs "text" with
    | some (.str "text"), some (.str t) =>
      match lookupField fs "cache_control" with
      | none => some ⟨t, false⟩
      | some (.obj cfs) =>
        match lookupField cfs "type" with
        | some (.str "ephemeral") => some ⟨t, true⟩
        | _ => none
      | some _ => none
    | _, _ => none
  | _ => none

/-- First `ContentBlockSchema` union option: `\x7b type: 'text', text \x7d`
(no `cache_control` in this schema, so a marker in the file is stripped). -/
def parseBlockText (fs : List (String × Json)) : Option ContentBlock :=
  match lookupField fs "type", lookupField fs "text" with
  | some (.str "text"), some (.str t) => some (.text t false)
  | _, _ => none

/-- Second union option: `\x7b type: 'tool_use', id, name, input: record \x7d`. -/
def parseBlockToolUse (fs : List (String × Json)) : Option ContentBlock :=
  match lookupField fs "type", lookupField fs "id", lookupField fs "name",
      lookupField fs "input" with
  | some (.str "tool_use"), some (.str id), some (.str nm), some (.obj inputFs) =>
    some (.tool_use id nm inputFs false)
  | _, _, _, _ => none

/-- Third union option: `\x7b type: 'tool_result', tool_use_id, content,
is_error? \x7d`. -/
def parseBlockToolResult (fs : List (String × Json)) : Option ContentBlock :=
  match lookupField fs "type", lookupField fs "tool_use_id",
      lookupField fs "content" with
  | some (.str "tool_result"), some (.str tid), some (.str c) =>
    match lookupField fs "is_error" with
    | none => some (.tool_result tid c none false)
    | some (.bool b) => some (.tool_result tid c (some b) false)
    | some _ => none
  | _, _, _ => none

/-- `ContentBlockSchema`: the union tried in declaration order. -/
def parseContentBlock : Json → Option ContentBlock
  | .obj fs =>
    match parseBlockText fs with
    | some b => some b
    | none =>
      match parseBlockToolUse fs with
      | some b => some b
      | none => parseBlockToolResult fs
  | _ => none

/-- `z.union([z.literal('user'), z.literal('assistant')])`. -/
def parseRole : Json → Option Role
  | .str "user" => some .user
  | .str "assistant" => some .assistant
  | _ => none

/-- `content: z.union([z.string(), z.array(ContentBlockSchema)])`. -/
def parseMessageContent : Json → Option MessageContent
  | .str s => some (.str s)
  | .arr xs => (xs.mapM parseContentBlock).map .blocks
  | _ => none

/-- `MessageParamSchema`. -/
def parseMessage : Json → Option Message
  | .obj fs =>
    match lookupField fs "role", lookupField fs "content" with
    | some rj, some cj =>
      match parseRole rj, parseMessageContent cj with
      | some r, some c => some ⟨r, c⟩
      | _, _ => none
    | _, _ => none
  | _ => none

/-- `MessageResultSchema`: `\x7b state: \x7b messages: MessageParam[],
systemPrompts: TextBlock[] \x7d \x7d`. -/
def parseMessageResult : Json → Option MessageResult
  | .obj fs =>
    match lookupField fs "state" with
    | some (.obj sfs) =>
      match lookupField sfs "messages", lookupField sfs "systemPrompts" with
      | some (.arr mjs), some (.arr pjs) =>
        match mjs.mapM parseMessage, pjs.mapM parseTextBlock with
        | some ms, some ps => some ⟨⟨ms, ps⟩⟩
        | _, _ => none
      | _, _ => none
    | _ => none
  | _ => none

/-! ## Session store (`common-args.ts`) -/

/-- Clear the marker on a system-prompt segment. -/
def clearTextBlockCache (p : TextBlock) : TextBlock := ⟨p.text, false⟩

/-- `stripCacheControlMarkers` clears markers on message content blocks
whose `type` is `'text'` only; `tool_use` and `tool_result` blocks are
returned as-is. -/
def stripBlockIfText : ContentBlock → ContentBlock
  | .text s _ => .text s false
  | b => b

/-- Per-message part of `stripCacheControlMarkers`: string content is
returned unchanged, array content has its text blocks cleaned. -/
def stripMessage (m : Message) : Message :=
  match m.content with
  | .str _ => m
  | .blocks bs => ⟨m.role, .blocks (bs.map stripBlockIfText)⟩

/-- `stripCacheControlMarkers` (`common-args.ts:163`). -/
def stripCacheControlMarkers (r : MessageResult) : MessageResult :=
  ⟨⟨r.state.messages.map stripMessage,
    r.state.systemPrompts.map clearTextBlockCache⟩⟩

/-- The JSON tree `saveSession` writes to the session file
(`JSON.stringify(stripCacheControlMarkers(result), null, '\t')`). -/
def savedSessionJson (r : MessageResult) : Json :=
  (stripCacheControlMarkers r).toJson

/-- What the file system offers `loadSession` at the resolved path:
no file, a file whose text `JSON.parse` rejects, or a file whose text
parses to a JSON tree. -/
inductive FileView where
  | missing : FileView
  | unparsable : FileView
  | content (j : Json) : FileView

/-- `loadSession` (`common-args.ts:128`): result together with the lines it
prints through `output.text`.  `p` stands for the resolved path used in the
messages; `!sessionPath` is also true for the empty string. -/
def loadSession (sessionPath : Option String) (file : FileView) :
    Option MessageResult × List String :=
  match sessionPath with
  | none => (none, [])
  | some p =>
    if p = "" then (none, [])
    else
      match file with
      | .missing => (none, [])
      | .unparsable =>
        (none, ["Error parsing session file " ++ p ++ ", starting fresh"])
      | .content j =>
        match parseMessageResult j with
        | some r => (some r, ["Session loaded from " ++ p])
        | none =>
          (none, ["Invalid session format in " ++ p ++ ", starting fresh"])

/-! ## Claim-side strip: remove every marker, independently of the code -/

/-- Clear the marker on any content block. -/
def clearBlockCache : ContentBlock → ContentBlock
  | .text s _ => .text s false
  | .tool_use id nm input _ => .tool_use id nm input false
  | .tool_result tid c ie _ => .tool_result tid c ie false

/-- Remove every cache marker from a message. -/
def stripAllMessage (m : Message) : Message :=
  match m.content with
  | .str _ => m
  | .blocks bs => ⟨m.role, .blocks (bs.map clearBlockCache)⟩

/-- Remove every cache-boundary marker from a session, wherever it sits. -/
def stripAllMarkers (r : MessageResult) : MessageResult :=
  ⟨⟨r.state.messages.map stripAllMessage,
    r.state.systemPrompts.map clearTextBlockCache⟩⟩

/-! ## Tools and model responses -/

/-- `ToolResult`: what `invoke` returns on success. -/
structure ToolResult where
  content : String
  system : Option String
deriving DecidableEq

/-- An `AITool` as the engine sees it: its registered name
(`getDefinition().name`) and its `invoke`, which either returns a result or
throws an error carrying a message. -/
structure AITool where
  name : String
  invoke : List (String × Json) → Except String ToolResult

/-- A content block of a model response (`Anthropic.ContentBlock`): only
`text` and `tool_use` occur in responses, and never with markers. -/
inductive ResponseBlock where
  | text (text : String)
  | tool_use (id : String) (name : String) (input : List (String × Json))
deriving DecidableEq

/-- One model turn as consumed by the loop: the response content blocks. -/
structure Response where
  content : List ResponseBlock
deriving DecidableEq

/-- The `toolResult` object `handleClaudeResponse` builds for a `tool_use`
block. -/
structure ToolResultInfo where
  content : String
  tool_use_id : String
  is_error : Bool
  system : Option String
deriving DecidableEq

/-- `this.tools.find((t) => t.getDefinition().name === content.name)`. -/
def lookupTool (tools : List AITool) (nm : String) : Option AITool :=
  tools.find? (fun t => t.name == nm)

/-- `handleClaudeResponse` (`model.ts:32`): `text` blocks produce no tool
result; `tool_use` blocks look the tool up (an unknown name throws), invoke
it, and on a thrown invocation error produce an `is_error` result carrying
the error message. -/
def handleClaudeResponse (tools : List AITool) :
    ResponseBlock → Except String (Option ToolResultInfo)
  | .text _ => .ok none
  | .tool_use id nm input =>
    match lookupTool tools nm with
    | none => .error ("Tool " ++ nm ++ " not found")
    | some t =>
      match t.invoke input with
      | .ok r => .ok (some ⟨r.content, id, false, r.system⟩)
      | .error e => .ok (some ⟨e, id, true, none⟩)

/-- System-prompt segments appended for one tool result:
`if (toolResult.system)` — JavaScript truthiness, so the empty string is
not appended. -/
def systemSegmentsOf (tr : ToolResultInfo) : List TextBlock :=
  match tr.system with
  | some s => if s = "" then [] else [⟨s, false⟩]
  | none => []

/-- The single-block user message pushed for one tool result
(`model.ts:172`); `is_error` is present exactly when the result is an
error (`...(toolResult.is_error ? \x7b is_error: true \x7d : \x7b\x7d)`). -/
def toolResultMessage (tr : ToolResultInfo) : Message :=
  ⟨.user, .blocks [.tool_result tr.tool_use_id tr.content
    (if tr.is_error then some true else none) false]⟩

/-- The `for (const content of message.content)` dispatch loop
(`model.ts:158`): processes blocks in order, accumulating the pushed user
messages, the appended system segments, and `needsContinuation`; a
tool-lookup failure propagates as a thrown (fatal) error. -/
def dispatchBlocks (tools : List AITool) :
    List ResponseBlock → Except String (List Message × List TextBlock × Bool)
  | [] => .ok ([], [], false)
  | b :: bs =>
    match handleClaudeResponse tools b with
    | .error e => .error e
    | .ok none => dispatchBlocks tools bs
    | .ok (some tr) =>
      match dispatchBlocks tools bs with
      | .error e => .error e
      | .ok (msgs, segs, _) =>
        .ok (toolResultMessage tr :: msgs, systemSegmentsOf tr ++ segs, true)

/-- Embed a response block into the message history (response blocks carry
no markers). -/
def ResponseBlock.toContentBlock : ResponseBlock → ContentBlock
  | .text s => .text s false
  | .tool_use id nm input => .tool_use id nm input false

/-- The assistant message appended for a response (`model.ts:152`). -/
def assistantMessage (r : Response) : Message :=
  ⟨.assistant, .blocks (r.content.map ResponseBlock.toContentBlock)⟩

/-! ## System-prompt annotation (identical in all engine revisions) -/

/-- `systemPrompts.map(...)` in `createMessageFromHistory`: every segment
has its `cache_control` deleted and the last segment gets a fresh
`\x7b type: 'ephemeral' \x7d` marker. -/
def processSystemPrompts : List TextBlock → List TextBlock
  | [] => []
  | [p] => [⟨p.text, true⟩]
  | p :: q :: ps => ⟨p.text, false⟩ :: processSystemPrompts (q :: ps)

/-! ## Cache annotator, simple strategy (`src/model.ts:88`) -/

/-- Set the marker on any block (`lastBlock.cache_control =
\x7b type: 'ephemeral' \x7d`, applied through a `TextBlock` cast but
effective on every block shape). -/
def setBlockCache : ContentBlock → ContentBlock
  | .text s _ => .text s true
  | .tool_use id nm input _ => .tool_use id nm input true
  | .tool_result tid c ie _ => .tool_result tid c ie true

/-- Mark the last block of a block list. -/
def markLastBlock : List ContentBlock → List ContentBlock
  | [] => []
  | [b] => [setBlockCache b]
  | b :: c :: bs => b :: markLastBlock (c :: bs)

/-- String content becomes a single text block; array content is kept. -/
def normContent : MessageContent → List ContentBlock
  | .str s => [.text s false]
  | .blocks bs => bs

/-- String-to-array content conversion applied to one message. -/
def normMessage (m : Message) : Message :=
  ⟨m.role, .blocks (normContent m.content)⟩

/-- `applyCachingStrategy` of `src/model.ts`: on a deep clone, if the last
message is a user message, convert string content to a block array and mark
its last content block (when one exists).  Other messages are untouched. -/
def applyCachingStrategySimple (messages : List Message) : List Message :=
  match messages.getLast? with
  | none => messages
  | some last =>
    if last.role = .user then
      let bs := normContent last.content
      let bs2 := if bs.isEmpty then bs else markLastBlock bs
      messages.dropLast ++ [⟨.user, .blocks bs2⟩]
    else messages

/-! ## Cache annotator, token-counting strategy (earlier `model.ts`
revision, kept in the repository) -/

/-- `estimateTokens`: non-whitespace character count divided by 4, rounded
up (`Math.ceil(strippedText.length / 4)`). -/
def estimateTokens (s : String) : Nat :=
  ((s.toList.filter (fun c => !c.isWhitespace)).length + 3) / 4

/-- Marker presence on a block (`'cache_control' in block`). -/
def blockCache : ContentBlock → Bool
  | .text _ cc => cc
  | .tool_use _ _ _ cc => cc
  | .tool_result _ _ _ cc => cc

/-- Token contribution of one block in the counting pass: text blocks
contribute their text, `tool_use` blocks the serialized input, and
`tool_result` blocks nothing. -/
def blockTokens : ContentBlock → Nat
  | .text s _ => estimateTokens s
  | .tool_use _ _ input _ => estimateTokens (Json.stringify (.obj input))
  | .tool_result _ _ _ _ => 0

/-- State of the first counting pass: markers seen, estimated tokens since
the last marker, and the `[messageIndex, contentIndex]` of the last marker. -/
structure ScanState where
  count : Nat
  tokens : Nat
  lastMarker : Option (Nat × Nat)
deriving DecidableEq

/-- One iteration of the inner block loop: add the block's tokens, then a
present marker bumps the count, resets the token counter and records the
position. -/
def scanBlock (mi bi : Nat) (st : ScanState) (b : ContentBlock) : ScanState :=
  let tokens := st.tokens + blockTokens b
  if blockCache b then ⟨st.count + 1, 0, some (mi, bi)⟩
  else ⟨st.count, tokens, st.lastMarker⟩

/-- The inner `for (blockIndex ...)` loop. -/
def scanBlocks (mi : Nat) : Nat → ScanState → List ContentBlock → ScanState
  | _, st, [] => st
  | bi, st, b :: bs => scanBlocks mi (bi + 1) (scanBlock mi bi st b) bs

/-- The outer `for (msgIndex ...)` loop, over already-normalized messages. -/
def scanMessages : Nat → ScanState → List Message → ScanState
  | _, st, [] => st
  | mi, st, m :: ms =>
    scanMessages (mi + 1) (scanBlocks mi 0 st (normContent m.content)) ms

/-- `delete block.cache_control` at a content index. -/
def clearBlockAt : Nat → List ContentBlock → List ContentBlock
  | _, [] => []
  | 0, b :: bs => clearBlockCache b :: bs
  | n + 1, b :: bs => b :: clearBlockAt n bs

/-- Delete the marker at `[msgIndex, blockIndex]` (the code only touches
array content, guarded by `Array.isArray`). -/
def clearMarkerAt : Nat → Nat → List Message → List Message
  | _, _, [] => []
  | 0, bi, m :: ms =>
    (match m.content with
     | .blocks bs => ⟨m.role, .blocks (clearBlockAt bi bs)⟩
     | .str s => ⟨m.role, .str s⟩) :: ms
  | n + 1, bi, m :: ms => m :: clearMarkerAt n bi ms

/-- Mark the last content block of the last message. -/
def markLastMessageBlock : List Message → List Message
  | [] => []
  | [m] => [⟨m.role, .blocks (markLastBlock (normContent m.content))⟩]
  | m :: m2 :: ms => m :: markLastMessageBlock (m2 :: ms)

/-- Whether the last message has nonempty array content
(`Array.isArray(lastMessage.content) && lastMessage.content.length > 0`,
after string conversion). -/
def lastBlocksNonempty (msgs : List Message) : Bool :=
  match msgs.getLast? with
  | some m =>
    match m.content with
    | .blocks (_ :: _) => true
    | _ => false
  | none => false

/-- `applyCachingStrategy` of the token-counting revision: normalize string
content everywhere, scan markers and tokens, then either add a first marker
(> 1024 tokens, no marker yet), add an incremental marker (1 or 2 markers,
> 2048 tokens since the last), move the most recent marker to the end (3 or
more markers), or leave the (normalized) clone as is. -/
def applyCachingStrategy (messages : List Message) : List Message :=
  match messages with
  | [] => []
  | _ :: _ =>
    let pm := messages.map normMessage
    let st := scanMessages 0 ⟨0, 0, none⟩ pm
    if lastBlocksNonempty pm then
      if st.count = 0 ∧ st.tokens > 1024 then markLastMessageBlock pm
      else if 0 < st.count ∧ st.count < 3 ∧ st.tokens > 2048 then
        markLastMessageBlock pm
      else
        match st.lastMarker with
        | some (mi, bi) =>
          if 3 ≤ st.count then markLastMessageBlock (clearMarkerAt mi bi pm)
          else pm
        | none => pm
    else pm

/-! ## The agent loop

The remote model is an oracle: a list of responses consumed one per
request.  The loop returns the final state, a thrown engine error, or runs
out of oracle turns; it also records, per turn, the canonical history it
was called with and the annotated request it sent. -/

/-- Outcome of `createMessageFromHistory` over a finite oracle. -/
inductive LoopResult where
  | done (messages : List Message) (systemPrompts : List TextBlock)
  | fatal (msg : String)
  | outOfTurns
deriving DecidableEq

/-- One provider request as recorded while the loop runs. -/
structure TraceEntry where
  canonical : List Message
  request : List Message
  requestSystem : List TextBlock
deriving DecidableEq

/-- `createMessageFromHistory` of `src/model.ts`: annotate system prompts
and a cloned message copy, send, append the assistant response and one user
message per tool result to the **unannotated** history, and recurse while
any tool was used. -/
def runModel (tools : List AITool) :
    List Response → List Message → List TextBlock → LoopResult × List TraceEntry
  | [], _, _ => (.outOfTurns, [])
  | r :: rest, messages, sys =>
    let pSys := processSystemPrompts sys
    let pMsgs := applyCachingStrategySimple messages
    let entry : TraceEntry := ⟨messages, pMsgs, pSys⟩
    match dispatchBlocks tools r.content with
    | .error e => (.fatal e, [entry])
    | .ok (userMsgs, segs, needsCont) =>
      let newMessages := messages ++ (assistantMessage r :: userMsgs)
      let newSys := pSys ++ segs
      if needsCont then
        let res := runModel tools rest newMessages newSys
        (res.1, entry :: res.2)
      else (.done newMessages newSys, [entry])

/-- `createMessageFromHistory` of the token-counting revision: same loop,
except that the annotator is the token-counting one and the **annotated**
copy `processedMessages` is what the recursion threads onward. -/
def runModelLegacy (tools : List AITool) :
    List Response → List Message → List TextBlock → LoopResult × List TraceEntry
  | [], _, _ => (.outOfTurns, [])
  | r :: rest, messages, sys =>
    let pSys := processSystemPrompts sys
    let pMsgs := applyCachingStrategy messages
    let entry : TraceEntry := ⟨messages, pMsgs, pSys⟩
    match dispatchBlocks tools r.content with
    | .error e => (.fatal e, [entry])
    | .ok (userMsgs, segs, needsCont) =>
      let newMessages := pMsgs ++ (assistantMessage r :: userMsgs)
      let newSys := pSys ++ segs
      if needsCont then
        let res := runModelLegacy tools rest newMessages newSys
        (res.1, entry :: res.2)
      else (.done newMessages newSys, [entry])

/-- `CreateMessageOptions`. -/
structure CreateMessageOptions where
  prompt : String
  context : Option (List String)
  session : Option SessionState

/-- Starting system prompts assembled by `createMessage`: the prior
session's prompts if any, else the base prompt; then any nonempty context
list appended in order. -/
def initialSystemPrompts (basePrompt : String) (o : CreateMessageOptions) :
    List TextBlock :=
  (match o.session with
   | some s => s.systemPrompts
   | none => [⟨basePrompt, false⟩]) ++
  (match o.context with
   | some ctx => if ctx.isEmpty then [] else ctx.map (fun t => ⟨t, false⟩)
   | none => [])

/-- Starting messages assembled by `createMessage`: the prior session's
messages (if any) plus the fresh prompt as a string-content user message. -/
def initialMessages (o : CreateMessageOptions) : List Message :=
  (match o.session with
   | some s => s.messages
   | none => []) ++ [⟨.user, .str o.prompt⟩]

/-- `createMessage` of `src/model.ts` over the response oracle. -/
def createMessage (basePrompt : String) (tools : List AITool)
    (responses : List Response) (o : CreateMessageOptions) :
    LoopResult × List TraceEntry :=
  runModel tools responses (initialMessages o) (initialSystemPrompts basePrompt o)

/-- Outcome of the surrounding CLI command (`edit.ts:49`): a thrown engine
error is caught, reported as `'Error: ' + message`, and the process exits
with status 1; a completed exchange is saved and the action returns
normally. -/
structure CommandOutcome where
  exitCode : Option Nat
  errorReport : Option String
deriving DecidableEq

/-- The `try/catch` of `setupEditCommand` applied to the loop outcome. -/
def editCommandOutcome : LoopResult → CommandOutcome
  | .done _ _ => ⟨none, none⟩
  | .fatal e => ⟨some 1, some ("Error: " ++ e)⟩
  | .outOfTurns => ⟨none, none⟩

/-! ## Claim-side measures

Stated independently of the scanning pass so that the claims do not merely
restate the annotator's definition. -/

/-- Number of marked blocks in a block list. -/
def countBlockMarkers (bs : List ContentBlock) : Nat :=
  (bs.filter blockCache).length

/-- Number of markers carried by one message (string content carries none). -/
def messageMarkers (m : Message) : Nat :=
  match m.content with
  | .str _ => 0
  | .blocks bs => countBlockMarkers bs

/-- Number of cache markers present in a message history. -/
def countMarkers (msgs : List Message) : Nat :=
  (msgs.map messageMarkers).sum

/-- Number of marked segments in a system-prompt list. -/
def sysMarkerCount (sys : List TextBlock) : Nat :=
  (sys.filter (fun p => p.cache_control)).length

/-- The system-prompt list carries a marker on its last segment and on no
other segment. -/
def markedExactlyLast : List TextBlock → Bool
  | [] => false
  | [p] => p.cache_control
  | p :: q :: ps => !p.cache_control && markedExactlyLast (q :: ps)

/-- Whether a response block is a `tool_use` request. -/
def isToolUseBlock : ResponseBlock → Bool
  | .tool_use _ _ _ => true
  | .text _ => false

/-- The `tool_use` blocks of a turn, in response order. -/
def toolUses (blocks : List ResponseBlock) : List ResponseBlock :=
  blocks.filter isToolUseBlock

/-- Whether a turn requests at least one tool. -/
def hasToolUse (blocks : List ResponseBlock) : Bool :=
  blocks.any isToolUseBlock

/-- Whether a block's named tool is present in the registry. -/
def blockRegistered (tools : List AITool) : ResponseBlock → Bool
  | .text _ => true
  | .tool_use _ nm _ => (lookupTool tools nm).isSome

/-- Every `tool_use` of the turn names a registered tool. -/
def allRegistered (tools : List AITool) (blocks : List ResponseBlock) : Bool :=
  blocks.all (blockRegistered tools)

/-- The tool result a block produces when its tool is registered:
`none` for text blocks, the success result or the caught-error result for
`tool_use` blocks (and `none` again for an unregistered name, where the
real code throws instead). -/
def toolOutcome (tools : List AITool) : ResponseBlock → Option ToolResultInfo
  | .text _ => none
  | .tool_use id nm input =>
    match lookupTool tools nm with
    | none => none
    | some t =>
      match t.invoke input with
      | .ok r => some ⟨r.content, id, false, r.system⟩
      | .error e => some ⟨e, id, true, none⟩

/-- The tool-result user messages one turn appends, in block order. -/
def turnToolMessages (tools : List AITool) (blocks : List ResponseBlock) :
    List Message :=
  (blocks.filterMap (toolOutcome tools)).map toolResultMessage

/-- The system segments one turn appends, in block order. -/
def turnSystemSegments (tools : List AITool) (blocks : List ResponseBlock) :
    List TextBlock :=
  ((blocks.filterMap (toolOutcome tools)).map systemSegmentsOf).flatten

/-- All messages (assistant plus tool results) one turn appends. -/
def turnMessages (tools : List AITool) (r : Response) : List Message :=
  assistantMessage r :: turnToolMessages tools r.content

/-- The flattened block sequence of a history, with string content read as
a single text block. -/
def flattenBlocks (msgs : List Message) : List ContentBlock :=
  (msgs.map (fun m => normContent m.content)).flatten

/-- Estimated tokens accumulated after the most recent marker (the whole
history when no marker exists). -/
def tokensAfterLastMarker (bs : List ContentBlock) : Nat :=
  ((bs.reverse.takeWhile (fun b => !blockCache b)).map blockTokens).sum

/-- Claim-side tokens-since-last-marker of a message history. -/
def tokensSinceLastMarker (msgs : List Message) : Nat :=
  tokensAfterLastMarker (flattenBlocks msgs)

/-- Index of the last marked block in a block list. -/
def lastMarkedPosBlocks : List ContentBlock → Option Nat
  | [] => none
  | b :: bs =>
    match lastMarkedPosBlocks bs with
    | some j => some (j + 1)
    | none => if blockCache b then some 0 else none

/-- Position `[messageIndex, blockIndex]` of the last marked block of a
history. -/
def lastMarkedPos : List Message → Option (Nat × Nat)
  | [] => none
  | m :: ms =>
    match lastMarkedPos ms with
    | some (i, j) => some (i + 1, j)
    | none =>
      match lastMarkedPosBlocks (normContent m.content) with
      | some j => some (0, j)
      | none => none

/-- Whether a message carries any marker. -/
def msgHasMarker (m : Message) : Bool :=
  (normContent m.content).any blockCache

/-- Clear the first marked block of a list (used from the right to clear
the most recent marker). -/
def clearFirstMarked : List ContentBlock → List ContentBlock
  | [] => []
  | b :: bs =>
    if blockCache b then clearBlockCache b :: bs else b :: clearFirstMarked bs

/-- Clear the last marked block within one message. -/
def clearMsgLastMarked (m : Message) : Message :=
  match m.content with
  | .blocks bs => ⟨m.role, .blocks (clearFirstMarked bs.reverse).reverse⟩
  | .str s => ⟨m.role, .str s⟩

/-- Claim-side statement of the move case: clear the most recent marker of
the history. -/
def unmarkLastMarked : List Message → List Message
  | [] => []
  | m :: ms =>
    if ms.any msgHasMarker then m :: unmarkLastMarked ms
    else if msgHasMarker m then clearMsgLastMarked m :: ms
    else m :: ms

/-! ## Helper lemmas: marker counts -/

theorem countMarkers_nil : countMarkers [] = 0 := rfl

theorem countMarkers_cons (m : Message) (ms : List Message) :
    countMarkers (m :: ms) = messageMarkers m + countMarkers ms := by
  simp [countMarkers]

theorem countMarkers_append (a b : List Message) :
    countMarkers (a ++ b) = countMarkers a + countMarkers b := by
  simp [countMarkers]

theorem countBlockMarkers_append (a b : List ContentBlock) :
    countBlockMarkers (a ++ b) = countBlockMarkers a + countBlockMarkers b := by
  simp [countBlockMarkers]

theorem countBlockMarkers_normContent (m : Message) :
    countBlockMarkers (normContent m.content) = messageMarkers m := by
  cases h : m.content with
  | str s => simp [normContent, messageMarkers, h, countBlockMarkers, blockCache]
  | blocks bs => simp [normContent, messageMarkers, h]

theorem messageMarkers_normMessage (m : Message) :
    messageMarkers (normMessage m) = messageMarkers m := by
  have := countBlockMarkers_normContent m
  simp [normMessage, messageMarkers]
  exact this

theorem countMarkers_normalize (msgs : List Message) :
    countMarkers (msgs.map normMessage) = countMarkers msgs := by
  induction msgs with
  | nil => rfl
  | cons m ms ih =>
    simp [countMarkers_cons, messageMarkers_normMessage, ih]

theorem messageMarkers_toolResultMessage (tr : ToolResultInfo) :
    messageMarkers (toolResultMessage tr) = 0 := by
  simp [toolResultMessage, messageMarkers, countBlockMarkers, blockCache]

theorem countBlockMarkers_map_toContentBlock (l : List ResponseBlock) :
    countBlockMarkers (l.map ResponseBlock.toContentBlock) = 0 := by
  induction l with
  | nil => rfl
  | cons b bs ih =>
    cases b <;>
      simpa [countBlockMarkers, List.filter_cons, ResponseBlock.toContentBlock,
        blockCache] using ih

theorem messageMarkers_assistantMessage (r : Response) :
    messageMarkers (assistantMessage r) = 0 := by
  simp only [assistantMessage, messageMarkers]
  exact countBlockMarkers_map_toContentBlock r.content

theorem countMarkers_turnToolMessages (tools : List AITool)
    (blocks : List ResponseBlock) :
    countMarkers (turnToolMessages tools blocks) = 0 := by
  unfold turnToolMessages countMarkers
  rw [List.map_map]
  apply List.sum_eq_zero
  intro x hx
  rw [List.mem_map] at hx
  obtain ⟨tr, htr, rfl⟩ := hx
  simpa using messageMarkers_toolResultMessage tr

theorem blockCache_setBlockCache (b : ContentBlock) :
    blockCache (setBlockCache b) = true := by
  cases b <;> simp [setBlockCache, blockCache]

theorem blockCache_clearBlockCache (b : ContentBlock) :
    blockCache (clearBlockCache b) = false := by
  cases b <;> simp [clearBlockCache, blockCache]

theorem countBlockMarkers_markLastBlock (bs : List ContentBlock) :
    countBlockMarkers (markLastBlock bs) ≤ countBlockMarkers bs + 1 := by
  induction bs with
  | nil => simp [markLastBlock, countBlockMarkers]
  | cons b bs ih =>
    cases bs with
    | nil =>
      have h1 : countBlockMarkers (markLastBlock [b]) = 1 := by
        simp [markLastBlock, countBlockMarkers, List.filter_cons,
          blockCache_setBlockCache]
      rw [h1]
      omega
    | cons c cs =>
      have h1 : markLastBlock (b :: c :: cs) = [b] ++ markLastBlock (c :: cs) := rfl
      have h2 : (b :: c :: cs) = [b] ++ (c :: cs) := rfl
      rw [h1, h2, countBlockMarkers_append, countBlockMarkers_append]
      omega

theorem countMarkers_markLastMessageBlock (msgs : List Message) :
    countMarkers (markLastMessageBlock msgs) ≤ countMarkers msgs + 1 := by
  induction msgs with
  | nil => simp [markLastMessageBlock, countMarkers]
  | cons m ms ih =>
    cases ms with
    | nil =>
      have h1 : markLastMessageBlock [m] =
          [⟨m.role, .blocks (markLastBlock (normContent m.content))⟩] := rfl
      rw [h1, countMarkers_cons, countMarkers_cons, countMarkers_nil]
      have h2 := countBlockMarkers_markLastBlock (normContent m.content)
      have h3 := countBlockMarkers_normContent m
      have h4 : messageMarkers ⟨m.role, .blocks (markLastBlock (normContent m.content))⟩ =
          countBlockMarkers (markLastBlock (normContent m.content)) := rfl
      rw [h4]
      omega
    | cons m2 ms2 =>
      have h1 : markLastMessageBlock (m :: m2 :: ms2) =
          m :: markLastMessageBlock (m2 :: ms2) := rfl
      rw [h1, countMarkers_cons, countMarkers_cons]
      omega

theorem countBlockMarkers_reverse (bs : List ContentBlock) :
    countBlockMarkers bs.reverse = countBlockMarkers bs := by
  simp [countBlockMarkers, List.filter_reverse]

theorem countBlockMarkers_clearFirstMarked (bs : List ContentBlock)
    (h : bs.any blockCache = true) :
    countBlockMarkers (clearFirstMarked bs) + 1 = countBlockMarkers bs := by
  induction bs with
  | nil => simp at h
  | cons b bs ih =>
    by_cases hb : blockCache b = true
    · simp [clearFirstMarked, hb, countBlockMarkers, List.filter_cons,
        blockCache_clearBlockCache]
    · simp only [List.any_cons, hb, Bool.false_or] at h
      simp [clearFirstMarked, hb, countBlockMarkers, List.filter_cons]
      have := ih h
      simp [countBlockMarkers] at this
      omega

theorem any_eq_filter_length_pos {α : Type} (p : α → Bool) (l : List α) :
    l.any p = true ↔ 0 < (l.filter p).length := by
  induction l with
  | nil => simp
  | cons x xs ih =>
    by_cases h : p x = true <;> simp [List.filter_cons, h, ih]

theorem msgHasMarker_iff (m : Message) :
    msgHasMarker m = true ↔ 0 < messageMarkers m := by
  rw [← countBlockMarkers_normContent m]
  simp only [msgHasMarker, countBlockMarkers]
  exact any_eq_filter_length_pos blockCache (normContent m.content)

theorem any_msgHasMarker_iff (msgs : List Message) :
    msgs.any msgHasMarker = true ↔ 0 < countMarkers msgs := by
  induction msgs with
  | nil => simp [countMarkers]
  | cons m ms ih =>
    simp only [List.any_cons, Bool.or_eq_true, countMarkers_cons, ih,
      msgHasMarker_iff]
    omega

theorem messageMarkers_clearMsgLastMarked (m : Message)
    (h : msgHasMarker m = true) :
    messageMarkers (clearMsgLastMarked m) + 1 = messageMarkers m := by
  obtain ⟨role, content⟩ := m
  cases content with
  | str s => simp [msgHasMarker, normContent, blockCache] at h
  | blocks bs =>
    simp only [msgHasMarker, normContent] at h
    have hrev : bs.reverse.any blockCache = true := by
      rw [List.any_reverse]; exact h
    have hcnt := countBlockMarkers_clearFirstMarked bs.reverse hrev
    rw [countBlockMarkers_reverse] at hcnt
    simp only [clearMsgLastMarked, messageMarkers]
    rw [countBlockMarkers_reverse]
    exact hcnt

theorem countMarkers_unmarkLastMarked (msgs : List Message)
    (h : msgs.any msgHasMarker = true) :
    countMarkers (unmarkLastMarked msgs) + 1 = countMarkers msgs := by
  induction msgs with
  | nil => simp at h
  | cons m ms ih =>
    cases hms : ms.any msgHasMarker with
    | true =>
      rw [show unmarkLastMarked (m :: ms) = m :: unmarkLastMarked ms from by
        simp [unmarkLastMarked, hms]]
      rw [countMarkers_cons, countMarkers_cons]
      have := ih hms
      omega
    | false =>
      have hm : msgHasMarker m = true := by
        rw [List.any_cons, hms] at h
        simpa using h
      rw [show unmarkLastMarked (m :: ms) = clearMsgLastMarked m :: ms from by
        simp [unmarkLastMarked, hms, hm]]
      rw [countMarkers_cons, countMarkers_cons]
      have := messageMarkers_clearMsgLastMarked m hm
      omega

/-! ## Helper lemmas: the counting pass -/

theorem scanBlocks_count (mi : Nat) (bs : List ContentBlock) :
    ∀ bi st, (scanBlocks mi bi st bs).count = st.count + countBlockMarkers bs := by
  induction bs with
  | nil => intro bi st; simp [scanBlocks, countBlockMarkers]
  | cons b bs ih =>
    intro bi st
    rw [scanBlocks, ih]
    cases h : blockCache b with
    | true =>
      simp [scanBlock, h, countBlockMarkers, List.filter_cons]
      omega
    | false =>
      simp [scanBlock, h, countBlockMarkers, List.filter_cons]

theorem scanMessages_count (msgs : List Message) :
    ∀ mi st, (scanMessages mi st msgs).count = st.count + countMarkers msgs := by
  induction msgs with
  | nil => intro mi st; simp [scanMessages, countMarkers]
  | cons m ms ih =>
    intro mi st
    rw [scanMessages, ih, scanBlocks_count, countBlockMarkers_normContent,
      countMarkers_cons]
    omega

theorem all_not_eq_not_any {α : Type} (p : α → Bool) (l : List α) :
    (l.all fun x => !p x) = !l.any p := by
  induction l with
  | nil => simp
  | cons x xs ih => cases h : p x <;> simp [h, ih]

theorem takeWhile_append_full {α : Type} (p : α → Bool) (l1 l2 : List α) :
    (l1 ++ l2).takeWhile p =
      if l1.all p then l1 ++ l2.takeWhile p else l1.takeWhile p := by
  induction l1 with
  | nil => simp
  | cons x xs ih =>
    cases h : p x with
    | false => simp [List.takeWhile_cons, h]
    | true =>
      simp only [List.cons_append, List.takeWhile_cons, h, List.all_cons,
        Bool.true_and, ih]
      cases hall : xs.all p <;> simp

theorem tokensAfterLastMarker_append (a b : List ContentBlock) :
    tokensAfterLastMarker (a ++ b) =
      if b.any blockCache then tokensAfterLastMarker b
      else tokensAfterLastMarker a + (b.map blockTokens).sum := by
  unfold tokensAfterLastMarker
  rw [List.reverse_append, takeWhile_append_full]
  cases hb : b.any blockCache with
  | true =>
    have hall : (b.reverse.all fun x => !blockCache x) = false := by
      rw [List.all_reverse, all_not_eq_not_any, hb]
      rfl
    simp [hall]
  | false =>
    have hall : (b.reverse.all fun x => !blockCache x) = true := by
      rw [List.all_reverse, all_not_eq_not_any, hb]
      rfl
    simp [hall, List.map_reverse, List.sum_reverse, Nat.add_comm]

theorem tokensAfterLastMarker_single_marked (b : ContentBlock)
    (h : blockCache b = true) : tokensAfterLastMarker [b] = 0 := by
  simp [tokensAfterLastMarker, List.takeWhile_cons, h]

theorem tokensAfterLastMarker_single_unmarked (b : ContentBlock)
    (h : blockCache b = false) :
    tokensAfterLastMarker [b] = blockTokens b := by
  simp [tokensAfterLastMarker, List.takeWhile_cons, h]

theorem scanBlocks_tokens (mi : Nat) (bs : List ContentBlock) :
    ∀ bi st, (scanBlocks mi bi st bs).tokens =
      if bs.any blockCache then tokensAfterLastMarker bs
      else st.tokens + (bs.map blockTokens).sum := by
  induction bs with
  | nil => intro bi st; simp [scanBlocks, tokensAfterLastMarker]
  | cons b bs ih =>
    intro bi st
    rw [scanBlocks, ih]
    have happ := tokensAfterLastMarker_append [b] bs
    simp only [List.singleton_append] at happ
    cases hb : blockCache b with
    | true =>
      have hsc : (scanBlock mi bi st b).tokens = 0 := by simp [scanBlock, hb]
      cases hbs : bs.any blockCache with
      | true => simp [hb, hbs, happ, List.any_cons]
      | false =>
        rw [happ, hbs, tokensAfterLastMarker_single_marked b hb]
        simp [hb, hbs, hsc, List.any_cons]
    | false =>
      have hsc : (scanBlock mi bi st b).tokens = st.tokens + blockTokens b := by
        simp [scanBlock, hb]
      cases hbs : bs.any blockCache with
      | true => simp [hb, hbs, happ, List.any_cons]
      | false =>
        simp [hb, hbs, hsc, List.any_cons]
        omega

theorem flattenBlocks_cons (m : Message) (ms : List Message) :
    flattenBlocks (m :: ms) = normContent m.content ++ flattenBlocks ms := by
  simp [flattenBlocks]

theorem scanMessages_tokens (msgs : List Message) :
    ∀ mi st, (scanMessages mi st msgs).tokens =
      if (flattenBlocks msgs).any blockCache then
        tokensAfterLastMarker (flattenBlocks msgs)
      else st.tokens + ((flattenBlocks msgs).map blockTokens).sum := by
  induction msgs with
  | nil => intro mi st; simp [scanMessages, flattenBlocks, tokensAfterLastMarker]
  | cons m ms ih =>
    intro mi st
    rw [scanMessages, ih, flattenBlocks_cons]
    have happ := tokensAfterLastMarker_append (normContent m.content) (flattenBlocks ms)
    have hst := scanBlocks_tokens mi (normContent m.content) 0 st
    cases hms : (flattenBlocks ms).any blockCache with
    | true => simp [List.any_append, hms, happ]
    | false =>
      cases hm : (normContent m.content).any blockCache with
      | true =>
        rw [happ, hms]
        simp [List.any_append, hms, hm, hst]
      | false =>
        rw [happ, hms]
        simp [List.any_append, hms, hm, hst]
        omega

theorem scanBlocks_lastMarker (mi : Nat) (bs : List ContentBlock) :
    ∀ bi st, (scanBlocks mi bi st bs).lastMarker =
      match lastMarkedPosBlocks bs with
      | some j => some (mi, bi + j)
      | none => st.lastMarker := by
  induction bs with
  | nil => intro bi st; simp [scanBlocks, lastMarkedPosBlocks]
  | cons b bs ih =>
    intro bi st
    rw [scanBlocks, ih]
    cases hlp : lastMarkedPosBlocks bs with
    | some j =>
      have harith : bi + 1 + j = bi + (j + 1) := by omega
      simp [lastMarkedPosBlocks, hlp, harith]
    | none =>
      cases hb : blockCache b with
      | true => simp [lastMarkedPosBlocks, hlp, hb, scanBlock]
      | false => simp [lastMarkedPosBlocks, hlp, hb, scanBlock]

theorem scanMessages_lastMarker (msgs : List Message) :
    ∀ mi st, (scanMessages mi st msgs).lastMarker =
      match lastMarkedPos msgs with
      | some (i, j) => some (mi + i, j)
      | none => st.lastMarker := by
  induction msgs with
  | nil => intro mi st; simp [scanMessages, lastMarkedPos]
  | cons m ms ih =>
    intro mi st
    rw [scanMessages, ih]
    cases hlp : lastMarkedPos ms with
    | some p =>
      obtain ⟨i, j⟩ := p
      have harith : mi + 1 + i = mi + (i + 1) := by omega
      simp [lastMarkedPos, hlp, harith]
    | none =>
      rw [scanBlocks_lastMarker]
      cases hb : lastMarkedPosBlocks (normContent m.content) with
      | some j => simp [lastMarkedPos, hlp, hb]
      | none => simp [lastMarkedPos, hlp, hb]

theorem lastMarkedPosBlocks_none_iff (bs : List ContentBlock) :
    lastMarkedPosBlocks bs = none ↔ bs.any blockCache = false := by
  induction bs with
  | nil => simp [lastMarkedPosBlocks]
  | cons b bs ih =>
    cases hlp : lastMarkedPosBlocks bs with
    | some j =>
      have : bs.any blockCache = true := by
        cases h : bs.any blockCache
        · exact absurd (ih.mpr h) (by simp [hlp])
        · rfl
      simp [lastMarkedPosBlocks, hlp, List.any_cons, this]
    | none =>
      cases hb : blockCache b <;>
        simp [lastMarkedPosBlocks, hlp, hb, List.any_cons, ih.mp hlp]

theorem lastMarkedPos_none_iff (msgs : List Message) :
    lastMarkedPos msgs = none ↔ msgs.any msgHasMarker = false := by
  induction msgs with
  | nil => simp [lastMarkedPos]
  | cons m ms ih =>
    cases hlp : lastMarkedPos ms with
    | some p =>
      obtain ⟨i, j⟩ := p
      have : ms.any msgHasMarker = true := by
        cases h : ms.any msgHasMarker
        · exact absurd (ih.mpr h) (by simp [hlp])
        · rfl
      simp [lastMarkedPos, hlp, List.any_cons, this]
    | none =>
      cases hb : lastMarkedPosBlocks (normContent m.content) with
      | some j =>
        have hm : msgHasMarker m = true := by
          rw [msgHasMarker]
          cases h : (normContent m.content).any blockCache
          · exact absurd ((lastMarkedPosBlocks_none_iff _).mpr h) (by simp [hb])
          · rfl
        simp [lastMarkedPos, hlp, hb, List.any_cons, hm]
      | none =>
        have hm : msgHasMarker m = false :=
          (lastMarkedPosBlocks_none_iff _).mp hb
        simp [lastMarkedPos, hlp, hb, List.any_cons, hm, ih.mp hlp]

theorem clearFirstMarked_append (l1 l2 : List ContentBlock) :
    clearFirstMarked (l1 ++ l2) =
      if l1.any blockCache then clearFirstMarked l1 ++ l2
      else l1 ++ clearFirstMarked l2 := by
  induction l1 with
  | nil => simp [clearFirstMarked]
  | cons b bs ih =>
    cases hb : blockCache b with
    | true => simp [clearFirstMarked, hb, List.any_cons]
    | false =>
      rw [show (b :: bs) ++ l2 = b :: (bs ++ l2) from rfl]
      rw [show clearFirstMarked (b :: (bs ++ l2)) =
        b :: clearFirstMarked (bs ++ l2) from by simp [clearFirstMarked, hb]]
      rw [ih]
      cases hbs : bs.any blockCache <;>
        simp [clearFirstMarked, hb, List.any_cons, hbs]

theorem clearBlockAt_eq_clearLast (bs : List ContentBlock) :
    ∀ j, lastMarkedPosBlocks bs = some j →
      clearBlockAt j bs = (clearFirstMarked bs.reverse).reverse := by
  induction bs with
  | nil => intro j h; simp [lastMarkedPosBlocks] at h
  | cons b bs ih =>
    intro j h
    cases hlp : lastMarkedPosBlocks bs with
    | some j0 =>
      simp only [lastMarkedPosBlocks, hlp, Option.some.injEq] at h
      subst h
      have hany : bs.any blockCache = true := by
        cases hx : bs.any blockCache
        · exact absurd ((lastMarkedPosBlocks_none_iff _).mpr hx) (by simp [hlp])
        · rfl
      have hrev : bs.reverse.any blockCache = true := by
        rw [List.any_reverse]; exact hany
      rw [show clearBlockAt (j0 + 1) (b :: bs) = b :: clearBlockAt j0 bs from rfl,
        ih j0 hlp]
      rw [show (b :: bs).reverse = bs.reverse ++ [b] from by simp,
        clearFirstMarked_append, hrev]
      simp
    | none =>
      simp only [lastMarkedPosBlocks, hlp] at h
      cases hb : blockCache b with
      | false => rw [hb] at h; simp at h
      | true =>
        rw [hb] at h
        simp at h
        subst h
        have hrev : bs.reverse.any blockCache = false := by
          rw [List.any_reverse]
          exact (lastMarkedPosBlocks_none_iff _).mp hlp
        rw [show clearBlockAt 0 (b :: bs) = clearBlockCache b :: bs from rfl]
        rw [show (b :: bs).reverse = bs.reverse ++ [b] from by simp,
          clearFirstMarked_append, hrev]
        simp [clearFirstMarked, hb]

theorem clearMarkerAt_eq_unmarkLastMarked (msgs : List Message) :
    ∀ i j, lastMarkedPos msgs = some (i, j) →
      clearMarkerAt i j msgs = unmarkLastMarked msgs := by
  induction msgs with
  | nil => intro i j h; simp [lastMarkedPos] at h
  | cons m ms ih =>
    intro i j h
    cases hlp : lastMarkedPos ms with
    | some p =>
      obtain ⟨i0, j0⟩ := p
      simp only [lastMarkedPos, hlp, Option.some.injEq, Prod.mk.injEq] at h
      obtain ⟨hi, hj⟩ := h
      subst hi hj
      have hany : ms.any msgHasMarker = true := by
        cases hx : ms.any msgHasMarker
        · exact absurd ((lastMarkedPos_none_iff _).mpr hx) (by simp [hlp])
        · rfl
      rw [show clearMarkerAt (i0 + 1) j0 (m :: ms) = m :: clearMarkerAt i0 j0 ms
        from rfl, ih i0 j0 hlp]
      simp [unmarkLastMarked, hany]
    | none =>
      simp only [lastMarkedPos, hlp] at h
      cases hb : lastMarkedPosBlocks (normContent m.content) with
      | none => rw [hb] at h; simp at h
      | some j1 =>
        rw [hb] at h
        simp only [Option.some.injEq, Prod.mk.injEq] at h
        obtain ⟨hi, hj⟩ := h
        subst hi hj
        have hanyms : ms.any msgHasMarker = false :=
          (lastMarkedPos_none_iff _).mp hlp
        have hm : msgHasMarker m = true := by
          rw [msgHasMarker]
          cases hx : (normContent m.content).any blockCache
          · exact absurd ((lastMarkedPosBlocks_none_iff _).mpr hx) (by simp [hb])
          · rfl
        cases hc : m.content with
        | str s =>
          rw [hc] at hb
          simp [normContent, lastMarkedPosBlocks, blockCache] at hb
        | blocks bs =>
          rw [hc] at hb
          simp only [normContent] at hb
          have hclear := clearBlockAt_eq_clearLast bs j1 hb
          rw [show clearMarkerAt 0 j1 (m :: ms) =
            (match m.content with
             | .blocks bs => ⟨m.role, .blocks (clearBlockAt j1 bs)⟩
             | .str s => ⟨m.role, .str s⟩) :: ms from rfl]
          rw [hc]
          simp only [unmarkLastMarked, hanyms, Bool.false_eq_true, if_false,
            hm, if_true]
          rw [show clearMsgLastMarked m =
            ⟨m.role, .blocks (clearFirstMarked bs.reverse).reverse⟩ from by
            rw [clearMsgLastMarked, hc]]
          rw [hclear]

/-! ## Helper lemmas: system-prompt annotation -/

theorem processSystemPrompts_ne_nil (sys : List TextBlock) (h : sys ≠ []) :
    processSystemPrompts sys ≠ [] := by
  cases sys with
  | nil => exact absurd rfl h
  | cons p ps => cases ps <;> simp [processSystemPrompts]

theorem processSystemPrompts_markedExactlyLast (sys : List TextBlock)
    (h : sys ≠ []) : markedExactlyLast (processSystemPrompts sys) = true := by
  induction sys with
  | nil => exact absurd rfl h
  | cons p ps ih =>
    cases ps with
    | nil => simp [processSystemPrompts, markedExactlyLast]
    | cons q ps2 =>
      rw [show processSystemPrompts (p :: q :: ps2) =
        ⟨p.text, false⟩ :: processSystemPrompts (q :: ps2) from rfl]
      have hne := processSystemPrompts_ne_nil (q :: ps2) (by simp)
      have htail := ih (by simp)
      cases hps : processSystemPrompts (q :: ps2) with
      | nil => exact absurd hps hne
      | cons x xs =>
        rw [hps] at htail
        simp [markedExactlyLast, htail]

theorem sysMarkerCount_cons (p : TextBlock) (ps : List TextBlock) :
    sysMarkerCount (p :: ps) =
      (if p.cache_control then 1 else 0) + sysMarkerCount ps := by
  cases h : p.cache_control with
  | true =>
    simp [sysMarkerCount, List.filter_cons, h]
    omega
  | false => simp [sysMarkerCount, List.filter_cons, h]

theorem sysMarkerCount_of_markedExactlyLast (sys : List TextBlock)
    (h : markedExactlyLast sys = true) : sysMarkerCount sys = 1 := by
  induction sys with
  | nil => simp [markedExactlyLast] at h
  | cons p ps ih =>
    cases ps with
    | nil =>
      simp only [markedExactlyLast] at h
      simp [sysMarkerCount, List.filter_cons, h]
    | cons q ps2 =>
      simp only [markedExactlyLast, Bool.and_eq_true, Bool.not_eq_true'] at h
      obtain ⟨hp, htail⟩ := h
      rw [sysMarkerCount_cons, hp]
      simpa using ih htail

/-- The last segment of a `markedExactlyLast` list is marked: the returned
state is not marker-free. -/
theorem markedExactlyLast_getLast (sys : List TextBlock)
    (h : markedExactlyLast sys = true) :
    ∃ p ∈ sys, p.cache_control = true := by
  induction sys with
  | nil => simp [markedExactlyLast] at h
  | cons p ps ih =>
    cases ps with
    | nil =>
      simp only [markedExactlyLast] at h
      exact ⟨p, by simp, h⟩
    | cons q ps2 =>
      simp only [markedExactlyLast, Bool.and_eq_true] at h
      obtain ⟨x, hx, hxc⟩ := ih h.2
      exact ⟨x, by simp [hx], hxc⟩

/-! ## Helper lemmas: tool dispatch -/

theorem handleClaudeResponse_registered (tools : List AITool)
    (b : ResponseBlock) (h : blockRegistered tools b = true) :
    handleClaudeResponse tools b = .ok (toolOutcome tools b) := by
  cases b with
  | text s => rfl
  | tool_use id nm input =>
    simp only [blockRegistered] at h
    obtain ⟨t, ht⟩ := Option.isSome_iff_exists.mp h
    cases hinv : t.invoke input <;>
      simp [handleClaudeResponse, toolOutcome, ht, hinv]

theorem dispatchBlocks_ok (tools : List AITool) (blocks : List ResponseBlock)
    (h : allRegistered tools blocks = true) :
    dispatchBlocks tools blocks =
      .ok (turnToolMessages tools blocks, turnSystemSegments tools blocks,
        hasToolUse blocks) := by
  induction blocks with
  | nil => rfl
  | cons b bs ih =>
    rw [allRegistered, List.all_cons, Bool.and_eq_true] at h
    obtain ⟨hb, hbs⟩ := h
    have ihh := ih hbs
    cases b with
    | text s =>
      simp [dispatchBlocks, handleClaudeResponse, ihh, turnToolMessages,
        turnSystemSegments, hasToolUse, isToolUseBlock, toolOutcome,
        List.filterMap_cons]
    | tool_use id nm input =>
      simp only [blockRegistered] at hb
      obtain ⟨t, ht⟩ := Option.isSome_iff_exists.mp hb
      cases hinv : t.invoke input with
      | ok r =>
        simp [dispatchBlocks, handleClaudeResponse, ht, hinv, ihh,
          turnToolMessages, turnSystemSegments, hasToolUse, isToolUseBlock,
          toolOutcome, List.filterMap_cons]
      | error e =>
        simp [dispatchBlocks, handleClaudeResponse, ht, hinv, ihh,
          turnToolMessages, turnSystemSegments, hasToolUse, isToolUseBlock,
          toolOutcome, List.filterMap_cons]

theorem dispatchBlocks_unregistered (tools : List AITool)
    (id nm : String) (input : List (String × Json))
    (post : List ResponseBlock) (hlookup : lookupTool tools nm = none) :
    ∀ pre, allRegistered tools pre = true →
      dispatchBlocks tools (pre ++ .tool_use id nm input :: post) =
        .error ("Tool " ++ nm ++ " not found") := by
  intro pre
  induction pre with
  | nil =>
    intro _
    simp [dispatchBlocks, handleClaudeResponse, hlookup]
  | cons b pbs ih =>
    intro h
    rw [allRegistered, List.all_cons, Bool.and_eq_true] at h
    obtain ⟨hb, hpbs⟩ := h
    have ihh := ih hpbs
    cases b with
    | text s =>
      simpa [dispatchBlocks, handleClaudeResponse] using ihh
    | tool_use id2 nm2 input2 =>
      simp only [blockRegistered] at hb
      obtain ⟨t, ht⟩ := Option.isSome_iff_exists.mp hb
      cases hinv : t.invoke input2 with
      | ok r => simp [dispatchBlocks, handleClaudeResponse, ht, hinv, ihh]
      | error e => simp [dispatchBlocks, handleClaudeResponse, ht, hinv, ihh]

theorem dispatchBlocks_markerFree (tools : List AITool)
    (blocks : List ResponseBlock) :
    ∀ um segs c, dispatchBlocks tools blocks = .ok (um, segs, c) →
      countMarkers um = 0 := by
  induction blocks with
  | nil =>
    intro um segs c h
    simp only [dispatchBlocks, Except.ok.injEq, Prod.mk.injEq] at h
    rw [← h.1]
    rfl
  | cons b bs ih =>
    intro um segs c h
    simp only [dispatchBlocks] at h
    cases hh : handleClaudeResponse tools b with
    | error e => rw [hh] at h; cases h
    | ok o =>
      rw [hh] at h
      cases o with
      | none => exact ih um segs c h
      | some tr =>
        cases hd : dispatchBlocks tools bs with
        | error e => rw [hd] at h; cases h
        | ok trip =>
          obtain ⟨um2, segs2, c2⟩ := trip
          rw [hd] at h
          simp only [Except.ok.injEq, Prod.mk.injEq] at h
          obtain ⟨h1, h2, h3⟩ := h
          subst h1
          rw [countMarkers_cons, messageMarkers_toolResultMessage,
            ih um2 segs2 c2 hd]

/-- With no tool result produced, the dispatch loop appends nothing. -/
theorem dispatchBlocks_no_continuation (tools : List AITool)
    (blocks : List ResponseBlock) :
    ∀ um segs, dispatchBlocks tools blocks = .ok (um, segs, false) →
      um = [] ∧ segs = [] := by
  induction blocks with
  | nil =>
    intro um segs h
    simp only [dispatchBlocks, Except.ok.injEq, Prod.mk.injEq] at h
    exact ⟨h.1.symm, h.2.1.symm⟩
  | cons b bs ih =>
    intro um segs h
    simp only [dispatchBlocks] at h
    cases hh : handleClaudeResponse tools b with
    | error e => rw [hh] at h; cases h
    | ok o =>
      rw [hh] at h
      cases o with
      | none => exact ih um segs h
      | some tr =>
        cases hd : dispatchBlocks tools bs with
        | error e => rw [hd] at h; cases h
        | ok trip =>
          obtain ⟨um2, segs2, c2⟩ := trip
          rw [hd] at h
          simp at h

/-! ## Helper lemmas: the token-counting annotator, characterized through
the claim-side measures -/

theorem takeWhile_all {α : Type} (p : α → Bool) (l : List α)
    (h : l.all p = true) : l.takeWhile p = l := by
  induction l with
  | nil => rfl
  | cons x xs ih =>
    rw [List.all_cons, Bool.and_eq_true] at h
    simp [List.takeWhile_cons, h.1, ih h.2]

theorem tokensAfterLastMarker_no_marker (bs : List ContentBlock)
    (h : bs.any blockCache = false) :
    tokensAfterLastMarker bs = (bs.map blockTokens).sum := by
  unfold tokensAfterLastMarker
  have hall : (bs.reverse.all fun x => !blockCache x) = true := by
    rw [List.all_reverse, all_not_eq_not_any, h]
    rfl
  rw [takeWhile_all _ _ hall, List.map_reverse, List.sum_reverse]

theorem flattenBlocks_normalize (msgs : List Message) :
    flattenBlocks (msgs.map normMessage) = flattenBlocks msgs := by
  induction msgs with
  | nil => rfl
  | cons m ms ih =>
    rw [List.map_cons, flattenBlocks_cons, flattenBlocks_cons, ih]
    rfl

theorem scan_count_eq (msgs : List Message) :
    (scanMessages 0 ⟨0, 0, none⟩ (msgs.map normMessage)).count =
      countMarkers msgs := by
  rw [scanMessages_count, countMarkers_normalize]
  simp

theorem scan_tokens_eq (msgs : List Message) :
    (scanMessages 0 ⟨0, 0, none⟩ (msgs.map normMessage)).tokens =
      tokensSinceLastMarker msgs := by
  rw [scanMessages_tokens, flattenBlocks_normalize]
  cases h : (flattenBlocks msgs).any blockCache with
  | true => simp [tokensSinceLastMarker]
  | false =>
    simp only [Bool.false_eq_true, if_false, Nat.zero_add]
    rw [tokensSinceLastMarker, tokensAfterLastMarker_no_marker _ h]

theorem applyCachingStrategy_characterization (msgs : List Message)
    (hne : msgs ≠ [])
    (hlast : lastBlocksNonempty (msgs.map normMessage) = true) :
    applyCachingStrategy msgs =
      (if countMarkers msgs = 0 ∧ 1024 < tokensSinceLastMarker msgs then
        markLastMessageBlock (msgs.map normMessage)
       else if 0 < countMarkers msgs ∧ countMarkers msgs < 3 ∧
           2048 < tokensSinceLastMarker msgs then
        markLastMessageBlock (msgs.map normMessage)
       else if 3 ≤ countMarkers msgs then
        markLastMessageBlock (unmarkLastMarked (msgs.map normMessage))
       else msgs.map normMessage) := by
  cases msgs with
  | nil => exact absurd rfl hne
  | cons m ms =>
    have hcount := scan_count_eq (m :: ms)
    have htok := scan_tokens_eq (m :: ms)
    have hlm := scanMessages_lastMarker ((m :: ms).map normMessage) 0 ⟨0, 0, none⟩
    simp only [List.map_cons] at hcount htok hlm hlast
    simp only [applyCachingStrategy, List.map_cons, hlast, if_true, hcount,
      htok, hlm]
    by_cases h1 : countMarkers (m :: ms) = 0 ∧
        1024 < tokensSinceLastMarker (m :: ms)
    · simp [h1]
    · by_cases h2 : 0 < countMarkers (m :: ms) ∧ countMarkers (m :: ms) < 3 ∧
          2048 < tokensSinceLastMarker (m :: ms)
      · simp [h1, h2]
      · by_cases h3 : 3 ≤ countMarkers (m :: ms)
        · have hpos : 0 < countMarkers (normMessage m :: List.map normMessage ms) := by
            rw [← List.map_cons, countMarkers_normalize]
            omega
          have hany : (normMessage m :: List.map normMessage ms).any msgHasMarker
              = true := (any_msgHasMarker_iff _).mpr hpos
          have hsome : lastMarkedPos (normMessage m :: List.map normMessage ms)
              ≠ none := by
            intro hcon
            rw [(lastMarkedPos_none_iff _).mp hcon] at hany
            cases hany
          obtain ⟨p, hp⟩ := Option.ne_none_iff_exists.mp hsome
          obtain ⟨i, j⟩ := p
          have hclear := clearMarkerAt_eq_unmarkLastMarked
            (normMessage m :: List.map normMessage ms) i j hp.symm
          simp [h1, h2, h3, hp.symm, hclear]
        · cases hlp : lastMarkedPos (normMessage m :: List.map normMessage ms) with
          | some p =>
            obtain ⟨i, j⟩ := p
            simp [h1, h2, h3, hlp]
          | none => simp [h1, h2, h3, hlp]

theorem applyCachingStrategy_bound (msgs : List Message)
    (h : countMarkers msgs ≤ 3) :
    countMarkers (applyCachingStrategy msgs) ≤ 3 := by
  cases msgs with
  | nil => simp [applyCachingStrategy, countMarkers]
  | cons m ms =>
    cases hlast : lastBlocksNonempty ((m :: ms).map normMessage) with
    | false =>
      have heq : applyCachingStrategy (m :: ms) = (m :: ms).map normMessage := by
        simp only [List.map_cons] at hlast
        simp [applyCachingStrategy, List.map_cons, hlast]
      rw [heq, countMarkers_normalize]
      exact h
    | true =>
      rw [applyCachingStrategy_characterization (m :: ms) (by simp) hlast]
      split_ifs with h1 h2 h3
      · have hml := countMarkers_markLastMessageBlock ((m :: ms).map normMessage)
        rw [countMarkers_normalize] at hml
        omega
      · have hml := countMarkers_markLastMessageBlock ((m :: ms).map normMessage)
        rw [countMarkers_normalize] at hml
        omega
      · have hpos : 0 < countMarkers ((m :: ms).map normMessage) := by
          rw [countMarkers_normalize]
          omega
        have hany : ((m :: ms).map normMessage).any msgHasMarker = true :=
          (any_msgHasMarker_iff _).mpr hpos
        have hunm := countMarkers_unmarkLastMarked _ hany
        have hml := countMarkers_markLastMessageBlock
          (unmarkLastMarked ((m :: ms).map normMessage))
        rw [countMarkers_normalize] at hunm
        omega
      · rw [countMarkers_normalize]
        exact h

/-! ## Helper lemmas: the loop -/

theorem runModel_step_fatal (tools : List AITool) (r : Response)
    (rest : List Response) (msgs : List Message) (sys : List TextBlock)
    (e : String) (hd : dispatchBlocks tools r.content = .error e) :
    runModel tools (r :: rest) msgs sys =
      (.fatal e,
       [⟨msgs, applyCachingStrategySimple msgs, processSystemPrompts sys⟩]) := by
  simp [runModel, hd]

theorem runModel_step_continue (tools : List AITool) (r : Response)
    (rest : List Response) (msgs : List Message) (sys : List TextBlock)
    (um : List Message) (segs : List TextBlock)
    (hd : dispatchBlocks tools r.content = .ok (um, segs, true)) :
    runModel tools (r :: rest) msgs sys =
      ((runModel tools rest (msgs ++ (assistantMessage r :: um))
          (processSystemPrompts sys ++ segs)).1,
       ⟨msgs, applyCachingStrategySimple msgs, processSystemPrompts sys⟩ ::
         (runModel tools rest (msgs ++ (assistantMessage r :: um))
           (processSystemPrompts sys ++ segs)).2) := by
  simp [runModel, hd]

theorem runModel_step_done (tools : List AITool) (r : Response)
    (rest : List Response) (msgs : List Message) (sys : List TextBlock)
    (um : List Message) (segs : List TextBlock)
    (hd : dispatchBlocks tools r.content = .ok (um, segs, false)) :
    runModel tools (r :: rest) msgs sys =
      (.done (msgs ++ (assistantMessage r :: um))
         (processSystemPrompts sys ++ segs),
       [⟨msgs, applyCachingStrategySimple msgs, processSystemPrompts sys⟩]) := by
  simp [runModel, hd]

theorem runModelLegacy_step_fatal (tools : List AITool) (r : Response)
    (rest : List Response) (msgs : List Message) (sys : List TextBlock)
    (e : String) (hd : dispatchBlocks tools r.content = .error e) :
    runModelLegacy tools (r :: rest) msgs sys =
      (.fatal e,
       [⟨msgs, applyCachingStrategy msgs, processSystemPrompts sys⟩]) := by
  simp [runModelLegacy, hd]

theorem runModelLegacy_step_continue (tools : List AITool) (r : Response)
    (rest : List Response) (msgs : List Message) (sys : List TextBlock)
    (um : List Message) (segs : List TextBlock)
    (hd : dispatchBlocks tools r.content = .ok (um, segs, true)) :
    runModelLegacy tools (r :: rest) msgs sys =
      ((runModelLegacy tools rest
          (applyCachingStrategy msgs ++ (assistantMessage r :: um))
          (processSystemPrompts sys ++ segs)).1,
       ⟨msgs, applyCachingStrategy msgs, processSystemPrompts sys⟩ ::
         (runModelLegacy tools rest
           (applyCachingStrategy msgs ++ (assistantMessage r :: um))
           (processSystemPrompts sys ++ segs)).2) := by
  simp [runModelLegacy, hd]

theorem runModelLegacy_step_done (tools : List AITool) (r : Response)
    (rest : List Response) (msgs : List Message) (sys : List TextBlock)
    (um : List Message) (segs : List TextBlock)
    (hd : dispatchBlocks tools r.content = .ok (um, segs, false)) :
    runModelLegacy tools (r :: rest) msgs sys =
      (.done (applyCachingStrategy msgs ++ (assistantMessage r :: um))
         (processSystemPrompts sys ++ segs),
       [⟨msgs, applyCachingStrategy msgs, processSystemPrompts sys⟩]) := by
  simp [runModelLegacy, hd]

theorem runModel_run_to_done (tools : List AITool) (init : List Response)
    (last : Response)
    (hlast : hasToolUse last.content = false)
    (hreglast : allRegistered tools last.content = true) :
    ∀ msgs sys,
      (∀ r ∈ init, allRegistered tools r.content = true) →
      (∀ r ∈ init, hasToolUse r.content = true) →
      ∃ sys2, (runModel tools (init ++ [last]) msgs sys).1 =
        .done (msgs ++ ((init ++ [last]).map (turnMessages tools)).flatten)
          sys2 := by
  induction init with
  | nil =>
    intro msgs sys _ _
    have hd := dispatchBlocks_ok tools last.content hreglast
    rw [hlast] at hd
    refine ⟨processSystemPrompts sys ++ turnSystemSegments tools last.content, ?_⟩
    rw [List.nil_append,
      runModel_step_done tools last [] msgs sys _ _ hd]
    simp [turnMessages]
  | cons r init ih =>
    intro msgs sys hreg htool
    have hr := hreg r (by simp)
    have ht := htool r (by simp)
    have hd := dispatchBlocks_ok tools r.content hr
    rw [ht] at hd
    rw [List.cons_append,
      runModel_step_continue tools r (init ++ [last]) msgs sys _ _ hd]
    obtain ⟨sys2, hrec⟩ := ih
      (msgs ++ (assistantMessage r :: turnToolMessages tools r.content))
      (processSystemPrompts sys ++ turnSystemSegments tools r.content)
      (fun x hx => hreg x (by simp [hx]))
      (fun x hx => htool x (by simp [hx]))
    refine ⟨sys2, ?_⟩
    rw [show ((runModel tools (init ++ [last])
        (msgs ++ (assistantMessage r :: turnToolMessages tools r.content))
        (processSystemPrompts sys ++ turnSystemSegments tools r.content)).1,
        (⟨msgs, applyCachingStrategySimple msgs, processSystemPrompts sys⟩ :
          TraceEntry) ::
        (runModel tools (init ++ [last])
          (msgs ++ (assistantMessage r :: turnToolMessages tools r.content))
          (processSystemPrompts sys ++ turnSystemSegments tools r.content)).2).1
      = (runModel tools (init ++ [last])
          (msgs ++ (assistantMessage r :: turnToolMessages tools r.content))
          (processSystemPrompts sys ++ turnSystemSegments tools r.content)).1
      from rfl]
    rw [hrec]
    simp [turnMessages, List.append_assoc]

theorem runModel_canonical_uncached (tools : List AITool)
    (responses : List Response) :
    ∀ msgs sys, countMarkers msgs = 0 →
      (∀ e ∈ (runModel tools responses msgs sys).2,
        countMarkers e.canonical = 0 ∧
        e.request = applyCachingStrategySimple e.canonical) ∧
      (∀ ms2 sys2, (runModel tools responses msgs sys).1 = .done ms2 sys2 →
        countMarkers ms2 = 0) := by
  induction responses with
  | nil =>
    intro msgs sys h0
    constructor
    · intro e he
      simp [runModel] at he
    · intro ms2 sys2 hdone
      simp [runModel] at hdone
  | cons r rest ih =>
    intro msgs sys h0
    cases hd : dispatchBlocks tools r.content with
    | error e =>
      rw [runModel_step_fatal tools r rest msgs sys e hd]
      constructor
      · intro en hen
        simp only [List.mem_singleton] at hen
        subst hen
        exact ⟨h0, rfl⟩
      · intro ms2 sys2 hdone
        simp at hdone
    | ok trip =>
      obtain ⟨um, segs, c⟩ := trip
      have hnew : countMarkers (msgs ++ (assistantMessage r :: um)) = 0 := by
        rw [countMarkers_append, countMarkers_cons,
          messageMarkers_assistantMessage,
          dispatchBlocks_markerFree tools r.content um segs c hd, h0]
      cases c with
      | true =>
        rw [runModel_step_continue tools r rest msgs sys um segs hd]
        obtain ⟨ih1, ih2⟩ := ih (msgs ++ (assistantMessage r :: um))
          (processSystemPrompts sys ++ segs) hnew
        constructor
        · intro e he
          simp only [List.mem_cons] at he
          cases he with
          | inl heq => subst heq; exact ⟨h0, rfl⟩
          | inr hmem => exact ih1 e hmem
        · intro ms2 sys2 hdone
          exact ih2 ms2 sys2 hdone
      | false =>
        rw [runModel_step_done tools r rest msgs sys um segs hd]
        constructor
        · intro en hen
          simp only [List.mem_singleton] at hen
          subst hen
          exact ⟨h0, rfl⟩
        · intro ms2 sys2 hdone
          have hdone2 : LoopResult.done (msgs ++ (assistantMessage r :: um))
              (processSystemPrompts sys ++ segs) = .done ms2 sys2 := hdone
          cases hdone2
          exact hnew

theorem runModel_done_sysMarked (tools : List AITool)
    (responses : List Response) :
    ∀ msgs sys, sys ≠ [] →
      ∀ ms2 sys2, (runModel tools responses msgs sys).1 = .done ms2 sys2 →
        markedExactlyLast sys2 = true := by
  induction responses with
  | nil =>
    intro msgs sys hne ms2 sys2 hdone
    simp [runModel] at hdone
  | cons r rest ih =>
    intro msgs sys hne ms2 sys2 hdone
    cases hd : dispatchBlocks tools r.content with
    | error e =>
      rw [runModel_step_fatal tools r rest msgs sys e hd] at hdone
      simp at hdone
    | ok trip =>
      obtain ⟨um, segs, c⟩ := trip
      cases c with
      | true =>
        rw [runModel_step_continue tools r rest msgs sys um segs hd] at hdone
        have hne2 : processSystemPrompts sys ++ segs ≠ [] := by
          have := processSystemPrompts_ne_nil sys hne
          simp [this]
        exact ih (msgs ++ (assistantMessage r :: um))
          (processSystemPrompts sys ++ segs) hne2 ms2 sys2 hdone
      | false =>
        rw [runModel_step_done tools r rest msgs sys um segs hd] at hdone
        have hdone2 : LoopResult.done (msgs ++ (assistantMessage r :: um))
            (processSystemPrompts sys ++ segs) = .done ms2 sys2 := hdone
        cases hdone2
        obtain ⟨hum, hsegs⟩ :=
          dispatchBlocks_no_continuation tools r.content um segs hd
        subst hsegs
        rw [List.append_nil]
        exact processSystemPrompts_markedExactlyLast sys hne

theorem runModelLegacy_trace_bound (tools : List AITool)
    (responses : List Response) :
    ∀ msgs sys, countMarkers msgs ≤ 3 → sys ≠ [] →
      ∀ e ∈ (runModelLegacy tools responses msgs sys).2,
        countMarkers e.request ≤ 3 ∧
        sysMarkerCount e.requestSystem = 1 ∧
        markedExactlyLast e.requestSystem = true := by
  induction responses with
  | nil =>
    intro msgs sys h3 hne e he
    simp [runModelLegacy] at he
  | cons r rest ih =>
    intro msgs sys h3 hne e he
    have hentry : countMarkers (applyCachingStrategy msgs) ≤ 3 ∧
        sysMarkerCount (processSystemPrompts sys) = 1 ∧
        markedExactlyLast (processSystemPrompts sys) = true := by
      have hm := processSystemPrompts_markedExactlyLast sys hne
      exact ⟨applyCachingStrategy_bound msgs h3,
        sysMarkerCount_of_markedExactlyLast _ hm, hm⟩
    cases hd : dispatchBlocks tools r.content with
    | error er =>
      rw [runModelLegacy_step_fatal tools r rest msgs sys er hd] at he
      simp only [List.mem_singleton] at he
      subst he
      exact hentry
    | ok trip =>
      obtain ⟨um, segs, c⟩ := trip
      cases c with
      | false =>
        rw [runModelLegacy_step_done tools r rest msgs sys um segs hd] at he
        simp only [List.mem_singleton] at he
        subst he
        exact hentry
      | true =>
        rw [runModelLegacy_step_continue tools r rest msgs sys um segs hd] at he
        simp only [List.mem_cons] at he
        cases he with
        | inl heq => subst heq; exact hentry
        | inr hmem =>
          have hnew3 : countMarkers
              (applyCachingStrategy msgs ++ (assistantMessage r :: um)) ≤ 3 := by
            rw [countMarkers_append, countMarkers_cons,
              messageMarkers_assistantMessage,
              dispatchBlocks_markerFree tools r.content um segs true hd]
            have := applyCachingStrategy_bound msgs h3
            omega
          have hne2 : processSystemPrompts sys ++ segs ≠ [] := by
            have := processSystemPrompts_ne_nil sys hne
            simp [this]
          exact ih _ _ hnew3 hne2 e hmem

/-! ## Helper lemmas: session round trip -/

theorem parse_toJson_sysBlock (p : TextBlock) :
    parseTextBlock (TextBlock.toJson (clearTextBlockCache p)) =
      some (clearTextBlockCache p) := by
  simp [TextBlock.toJson, clearTextBlockCache, parseTextBlock, ccFields,
    lookupField]

theorem parse_toJson_sysList (ps : List TextBlock) :
    ((ps.map clearTextBlockCache).map TextBlock.toJson).mapM parseTextBlock =
      some (ps.map clearTextBlockCache) := by
  induction ps with
  | nil => rfl
  | cons p ps ih =>
    simp only [List.map_cons, List.mapM_cons, parse_toJson_sysBlock, ih]
    rfl

theorem parse_toJson_block (b : ContentBlock) :
    parseContentBlock (ContentBlock.toJson (stripBlockIfText b)) =
      some (clearBlockCache b) := by
  cases b with
  | text s cc =>
    simp [stripBlockIfText, ContentBlock.toJson, ccFields, parseContentBlock,
      parseBlockText, lookupField, clearBlockCache]
  | tool_use id nm input cc =>
    cases cc <;>
      simp [stripBlockIfText, ContentBlock.toJson, ccFields, parseContentBlock,
        parseBlockText, parseBlockToolUse, lookupField, clearBlockCache]
  | tool_result tid c ie cc =>
    cases cc <;> cases ie <;>
      simp [stripBlockIfText, ContentBlock.toJson, ccFields, parseContentBlock,
        parseBlockText, parseBlockToolUse, parseBlockToolResult, lookupField,
        clearBlockCache]

theorem parse_toJson_blocks (bs : List ContentBlock) :
    ((bs.map stripBlockIfText).map ContentBlock.toJson).mapM parseContentBlock =
      some (bs.map clearBlockCache) := by
  induction bs with
  | nil => rfl
  | cons b bs ih =>
    simp only [List.map_cons, List.mapM_cons, parse_toJson_block, ih]
    rfl

theorem parse_toJson_message (m : Message) :
    parseMessage (Message.toJson (stripMessage m)) = some (stripAllMessage m) := by
  obtain ⟨role, content⟩ := m
  cases content with
  | str s => cases role <;> rfl
  | blocks bs =>
    have hbs := parse_toJson_blocks bs
    show (match parseRole (Role.toJson role),
        parseMessageContent
          (.arr ((bs.map stripBlockIfText).map ContentBlock.toJson)) with
      | some r, some c => some (⟨r, c⟩ : Message)
      | _, _ => none) =
      some (stripAllMessage ⟨role, .blocks bs⟩)
    have hc : parseMessageContent
        (.arr ((bs.map stripBlockIfText).map ContentBlock.toJson)) =
        some (.blocks (bs.map clearBlockCache)) := by
      show (((bs.map stripBlockIfText).map ContentBlock.toJson).mapM
        parseContentBlock).map MessageContent.blocks = _
      rw [hbs]
      rfl
    rw [hc]
    cases role <;> rfl

theorem parse_toJson_messages (msgs : List Message) :
    ((msgs.map stripMessage).map Message.toJson).mapM parseMessage =
      some (msgs.map stripAllMessage) := by
  induction msgs with
  | nil => rfl
  | cons m ms ih =>
    simp only [List.map_cons, List.mapM_cons, parse_toJson_message, ih]
    rfl

/-- The session file written by `saveSession` parses back to the session
with every marker removed. -/
theorem parse_savedSessionJson (r : MessageResult) :
    parseMessageResult (savedSessionJson r) = some (stripAllMarkers r) := by
  obtain ⟨⟨msgs, sys⟩⟩ := r
  show (match ((msgs.map stripMessage).map Message.toJson).mapM parseMessage,
      ((sys.map clearTextBlockCache).map TextBlock.toJson).mapM parseTextBlock with
    | some ms, some ps => some (⟨⟨ms, ps⟩⟩ : MessageResult)
    | _, _ => none) = some (stripAllMarkers ⟨⟨msgs, sys⟩⟩)
  rw [parse_toJson_messages, parse_toJson_sysList]
  rfl

/-! ## Helper definitions and lemmas: per-tool-use result messages -/

/-- The user message the loop builds for one `tool_use` block whose tool is
registered: a single `tool_result` carrying the tool's content on success,
or the thrown error's message with `is_error = true` on failure. -/
def expectedToolMessage (tools : List AITool) (id nm : String)
    (input : List (String × Json)) : Message :=
  match lookupTool tools nm with
  | some t =>
    match t.invoke input with
    | .ok res => ⟨.user, .blocks [.tool_result id res.content none false]⟩
    | .error e => ⟨.user, .blocks [.tool_result id e (some true) false]⟩
  | none => ⟨.user, .blocks []⟩

theorem turnToolMessages_eq_map (tools : List AITool) :
    ∀ blocks, allRegistered tools blocks = true →
      turnToolMessages tools blocks = (toolUses blocks).map (fun u =>
        match u with
        | .tool_use id nm input => expectedToolMessage tools id nm input
        | .text _ => ⟨.user, .blocks []⟩) := by
  intro blocks
  induction blocks with
  | nil => intro _; rfl
  | cons b bs ih =>
    intro hreg
    rw [allRegistered, List.all_cons, Bool.and_eq_true] at hreg
    obtain ⟨hb, hbs⟩ := hreg
    cases b with
    | text s =>
      simpa [turnToolMessages, toolUses, List.filterMap_cons, toolOutcome,
        isToolUseBlock, List.filter_cons] using ih hbs
    | tool_use id nm input =>
      simp only [blockRegistered] at hb
      obtain ⟨t, ht⟩ := Option.isSome_iff_exists.mp hb
      have ihh := ih hbs
      cases hinv : t.invoke input with
      | ok r =>
        rw [show turnToolMessages tools (ResponseBlock.tool_use id nm input :: bs)
          = toolResultMessage ⟨r.content, id, false, r.system⟩ ::
            turnToolMessages tools bs from by
          simp [turnToolMessages, List.filterMap_cons, toolOutcome, ht, hinv]]
        rw [show toolUses (ResponseBlock.tool_use id nm input :: bs) =
          ResponseBlock.tool_use id nm input :: toolUses bs from by
          simp [toolUses, List.filter_cons, isToolUseBlock]]
        rw [List.map_cons, ihh]
        congr 1
        simp [expectedToolMessage, ht, hinv, toolResultMessage]
      | error e =>
        rw [show turnToolMessages tools (ResponseBlock.tool_use id nm input :: bs)
          = toolResultMessage ⟨e, id, true, none⟩ ::
            turnToolMessages tools bs from by
          simp [turnToolMessages, List.filterMap_cons, toolOutcome, ht, hinv]]
        rw [show toolUses (ResponseBlock.tool_use id nm input :: bs) =
          ResponseBlock.tool_use id nm input :: toolUses bs from by
          simp [toolUses, List.filter_cons, isToolUseBlock]]
        rw [List.map_cons, ihh]
        congr 1
        simp [expectedToolMessage, ht, hinv, toolResultMessage]

theorem hasToolUse_of_split (pre post : List ResponseBlock)
    (id nm : String) (input : List (String × Json)) :
    hasToolUse (pre ++ .tool_use id nm input :: post) = true := by
  simp [hasToolUse, List.any_append, List.any_cons, isToolUseBlock]

/-- The messages list of a terminated loop run. -/
def LoopResult.messagesOf : LoopResult → Option (List Message)
  | .done ms _ => some ms
  | .fatal _ => none
  | .outOfTurns => none

/-! ## Claims -/

/-- C1 (counterexample): on a turn whose response carries two `tool_use`
blocks (ids `A` and `B`), the loop pushes two separate single-result user
messages, so the user message immediately following the assistant message
(index 2) carries only `A`'s result and no `tool_result` with
`tool_use_id = B` — the results are not combined into a single user
message. -/
theorem claim1_counterexample :
    (runModel
      [⟨"t1", fun _ => Except.ok ⟨"one", none⟩⟩,
       ⟨"t2", fun _ => Except.ok ⟨"two", none⟩⟩]
      [⟨[.tool_use "A" "t1" [], .tool_use "B" "t2" []]⟩, ⟨[.text "done"]⟩]
      [⟨.user, .str "q"⟩] [⟨"base", false⟩]).1 =
    .done
      [⟨.user, .str "q"⟩,
       ⟨.assistant, .blocks [.tool_use "A" "t1" [] false,
         .tool_use "B" "t2" [] false]⟩,
       ⟨.user, .blocks [.tool_result "A" "one" none false]⟩,
       ⟨.user, .blocks [.tool_result "B" "two" none false]⟩,
       ⟨.assistant, .blocks [.text "done" false]⟩]
      [⟨"base", true⟩] ∧
    ([ContentBlock.tool_result "A" "one" none false].countP
      (fun b => match b with
        | ContentBlock.tool_result tid _ _ _ => tid == "B"
        | _ => false)) = 0 := by
  constructor
  · rfl
  · decide

/-- C1 (amended): every `tool_use` block of a turn produces its **own**
single-block user message; these are appended in block order immediately
after the assistant message (and the loop continues with them); the k-th
such message carries exactly one `tool_result` whose `tool_use_id` is the
id of the k-th `tool_use` block and whose content is the tool's returned
content, or its error message with `is_error = true`. -/
theorem claim1_amended_per_toolresult_messages (tools : List AITool)
    (r : Response) (rest : List Response) (msgs : List Message)
    (sys : List TextBlock)
    (hreg : allRegistered tools r.content = true)
    (hcont : hasToolUse r.content = true) :
    (runModel tools (r :: rest) msgs sys).1 =
      (runModel tools rest
        (msgs ++ (assistantMessage r :: turnToolMessages tools r.content))
        (processSystemPrompts sys ++ turnSystemSegments tools r.content)).1 ∧
    (turnToolMessages tools r.content).length = (toolUses r.content).length ∧
    (∀ (k : Nat) (id nm : String) (input : List (String × Json)),
      (toolUses r.content)[k]? = some (ResponseBlock.tool_use id nm input) →
      (turnToolMessages tools r.content)[k]? =
        some (expectedToolMessage tools id nm input)) := by
  have hd := dispatchBlocks_ok tools r.content hreg
  rw [hcont] at hd
  have hmap := turnToolMessages_eq_map tools r.content hreg
  refine ⟨?_, ?_, ?_⟩
  · rw [runModel_step_continue tools r rest msgs sys _ _ hd]
  · rw [hmap, List.length_map]
  · intro k id nm input hk
    rw [hmap, List.getElem?_map, hk]
    rfl

/-- C1 (witness): the amended correspondence evaluated on a one-tool turn. -/
theorem claim1_witness :
    (turnToolMessages [⟨"w1t", fun _ => Except.ok ⟨"r1", none⟩⟩]
      [ResponseBlock.tool_use "X" "w1t" []])[0]? =
      some (expectedToolMessage [⟨"w1t", fun _ => Except.ok ⟨"r1", none⟩⟩]
        "X" "w1t" []) :=
  (claim1_amended_per_toolresult_messages
    [⟨"w1t", fun _ => Except.ok ⟨"r1", none⟩⟩]
    ⟨[ResponseBlock.tool_use "X" "w1t" []]⟩ [] [] []
    (by decide) (by decide)).2.2 0 "X" "w1t" [] rfl

/-- C2: for a finite sequence of model turns in which every non-final turn
requests at least one registered tool and the final turn requests none, the
loop terminates and the returned messages are exactly the starting messages
followed by, per turn in order, the assistant message and the tool-result
user messages that turn produced. -/
theorem claim2_termination_and_concatenation (tools : List AITool)
    (init : List Response) (last : Response) (msgs : List Message)
    (sys : List TextBlock)
    (hreg : ∀ r ∈ init ++ [last], allRegistered tools r.content = true)
    (hmid : ∀ r ∈ init, hasToolUse r.content = true)
    (hfin : hasToolUse last.content = false) :
    LoopResult.messagesOf (runModel tools (init ++ [last]) msgs sys).1 =
      some (msgs ++ ((init ++ [last]).map (turnMessages tools)).flatten) := by
  obtain ⟨sys2, h⟩ := runModel_run_to_done tools init last hfin
    (hreg last (by simp)) msgs sys (fun r hr => hreg r (by simp [hr])) hmid
  rw [h]
  rfl

/-- C2 (witness): a two-turn exchange (one tool turn, one text-only turn)
terminates with the concatenated history. -/
theorem claim2_witness :
    LoopResult.messagesOf
      (runModel [⟨"w2t", fun _ => Except.ok ⟨"out", none⟩⟩]
        ([⟨[.tool_use "I" "w2t" []]⟩] ++ [⟨[.text "fin"]⟩])
        [⟨.user, .str "ask"⟩] [⟨"bp", false⟩]).1 =
      some ([⟨.user, .str "ask"⟩] ++
        (([⟨[.tool_use "I" "w2t" []]⟩, ⟨[.text "fin"]⟩] :
          List Response).map
          (turnMessages [⟨"w2t", fun _ => Except.ok ⟨"out", none⟩⟩])).flatten) :=
  claim2_termination_and_concatenation
    [⟨"w2t", fun _ => Except.ok ⟨"out", none⟩⟩]
    [⟨[.tool_use "I" "w2t" []]⟩] ⟨[.text "fin"]⟩
    [⟨.user, .str "ask"⟩] [⟨"bp", false⟩]
    (by decide) (by decide) (by decide)

/-- C3: loading the file written by `saveSession` yields the session with
every cache marker independently stripped (the save strips markers from
system prompts and text blocks; markers persisted on `tool_use` or
`tool_result` blocks are stripped by the load-time schema, which accepts no
`cache_control` on message content). -/
theorem claim3_session_roundtrip (r : MessageResult) (p : String)
    (hp : p ≠ "") :
    loadSession (some p) (.content (savedSessionJson r)) =
      (some (stripAllMarkers r), ["Session loaded from " ++ p]) := by
  simp [loadSession, hp, parse_savedSessionJson]

/-- C3 (witness): round trip of a session carrying markers on a system
prompt, a text block, a `tool_use` block and a `tool_result` block, string
content, and an `is_error: false` field. -/
theorem claim3_witness :
    loadSession (some "w3.json")
      (.content (savedSessionJson ⟨⟨[
        ⟨.user, .str "hello"⟩,
        ⟨.assistant, .blocks [.text "hi" true,
          .tool_use "A" "read" [("p", .str "x")] true]⟩,
        ⟨.user, .blocks [.tool_result "A" "ok" (some false) true]⟩],
        [⟨"base", true⟩, ⟨"ctx", false⟩]⟩⟩)) =
      (some (stripAllMarkers ⟨⟨[
        ⟨.user, .str "hello"⟩,
        ⟨.assistant, .blocks [.text "hi" true,
          .tool_use "A" "read" [("p", .str "x")] true]⟩,
        ⟨.user, .blocks [.tool_result "A" "ok" (some false) true]⟩],
        [⟨"base", true⟩, ⟨"ctx", false⟩]⟩⟩),
       ["Session loaded from " ++ "w3.json"]) :=
  claim3_session_roundtrip _ "w3.json" (by decide)

/-- C4: starting from a marker-free history, the canonical message list the
loop threads through the recursion never contains a cache marker: every
turn's request is the annotated copy freshly computed from that turn's
canonical (unmarked) list, and the returned state's messages are
marker-free. -/
theorem claim4_uncached_history (tools : List AITool)
    (responses : List Response) (msgs : List Message) (sys : List TextBlock)
    (h0 : countMarkers msgs = 0) :
    (∀ e ∈ (runModel tools responses msgs sys).2,
      countMarkers e.canonical = 0 ∧
      e.request = applyCachingStrategySimple e.canonical) ∧
    (∀ ms2 sys2, (runModel tools responses msgs sys).1 = .done ms2 sys2 →
      countMarkers ms2 = 0) :=
  runModel_canonical_uncached tools responses msgs sys h0

/-- C4 (witness): a one-turn run returns a marker-free history. -/
theorem claim4_witness :
    countMarkers [⟨Role.user, MessageContent.str "q"⟩,
      ⟨Role.assistant, MessageContent.blocks [ContentBlock.text "hi" false]⟩]
      = 0 :=
  (claim4_uncached_history [] [⟨[.text "hi"]⟩] [⟨.user, .str "q"⟩]
    [⟨"b", false⟩] (by decide)).2
    [⟨Role.user, MessageContent.str "q"⟩,
     ⟨Role.assistant, MessageContent.blocks [ContentBlock.text "hi" false]⟩]
    [⟨"b", true⟩] rfl

/-- C5: in the token-counting engine revision, every provider request made
during a run that starts with at most 3 markers carries at most 3 markers
in its message history, and its system-prompt list carries exactly one
marker, placed on the last segment and on no other. -/
theorem claim5_marker_bound (tools : List AITool) (responses : List Response)
    (msgs : List Message) (sys : List TextBlock)
    (h3 : countMarkers msgs ≤ 3) (hne : sys ≠ []) :
    ∀ e ∈ (runModelLegacy tools responses msgs sys).2,
      countMarkers e.request ≤ 3 ∧
      sysMarkerCount e.requestSystem = 1 ∧
      markedExactlyLast e.requestSystem = true :=
  runModelLegacy_trace_bound tools responses msgs sys h3 hne

/-- C5 (witness): the single request of a one-turn legacy run satisfies the
marker bounds. -/
theorem claim5_witness :
    countMarkers (applyCachingStrategy [⟨.user, .str "hey"⟩]) ≤ 3 ∧
    sysMarkerCount (processSystemPrompts [⟨"b5", false⟩]) = 1 ∧
    markedExactlyLast (processSystemPrompts [⟨"b5", false⟩]) = true :=
  claim5_marker_bound [] [⟨[.text "t"]⟩] [⟨.user, .str "hey"⟩] [⟨"b5", false⟩]
    (by decide) (by decide)
    ⟨[⟨.user, .str "hey"⟩], applyCachingStrategy [⟨.user, .str "hey"⟩],
      processSystemPrompts [⟨"b5", false⟩]⟩ (by decide)

/-- C6 (counterexample): in the "otherwise" case the history is **not**
returned unchanged: a message with string content comes back with its
content converted to a one-element block array. -/
theorem claim6_counterexample :
    applyCachingStrategy [⟨.user, .str "hi"⟩] ≠ [⟨.user, .str "hi"⟩] := by
  decide

/-- C6 (amended): with tokens estimated as the non-whitespace character
count of text and tool-input content divided by 4 rounded up, and counting
markers anywhere in the history: with zero markers and more than 1024
tokens since the last marker a marker is added on the last content block of
the last message; with 1–2 markers and more than 2048 tokens it is likewise
added there; with 3 or more markers the most recent marker is deleted and a
marker added there; otherwise no marker changes — the history is returned
with string content normalized to single text blocks but otherwise
unchanged. -/
theorem claim6_amended_strategy (msgs : List Message) (hne : msgs ≠ [])
    (hlast : lastBlocksNonempty (msgs.map normMessage) = true) :
    (countMarkers msgs = 0 ∧ 1024 < tokensSinceLastMarker msgs →
      applyCachingStrategy msgs = markLastMessageBlock (msgs.map normMessage)) ∧
    (0 < countMarkers msgs ∧ countMarkers msgs < 3 ∧
        2048 < tokensSinceLastMarker msgs →
      applyCachingStrategy msgs = markLastMessageBlock (msgs.map normMessage)) ∧
    (3 ≤ countMarkers msgs →
      applyCachingStrategy msgs =
        markLastMessageBlock (unmarkLastMarked (msgs.map normMessage))) ∧
    (countMarkers msgs = 0 ∧ tokensSinceLastMarker msgs ≤ 1024 →
      applyCachingStrategy msgs = msgs.map normMessage) ∧
    (0 < countMarkers msgs ∧ countMarkers msgs < 3 ∧
        tokensSinceLastMarker msgs ≤ 2048 →
      applyCachingStrategy msgs = msgs.map normMessage) := by
  have hch := applyCachingStrategy_characterization msgs hne hlast
  refine ⟨?_, ?_, ?_, ?_, ?_⟩
  · intro hc
    rw [hch, if_pos hc]
  · intro hc
    rw [hch, if_neg (by omega), if_pos hc]
  · intro hc
    rw [hch, if_neg (by omega), if_neg (by omega), if_pos hc]
  · intro hc
    rw [hch, if_neg (by omega), if_neg (by omega), if_neg (by omega)]
  · intro hc
    rw [hch, if_neg (by omega), if_neg (by omega), if_neg (by omega)]

/-- C6 (witness): the move case on a history that already carries three
markers — the most recent one (on the assistant message) is cleared and the
last block of the last message is marked. -/
theorem claim6_witness :
    3 ≤ countMarkers [
      ⟨.user, .blocks [.text "a" true, .text "b" true]⟩,
      ⟨.assistant, .blocks [.text "c" true]⟩,
      ⟨.user, .blocks [.text "d" false]⟩] ∧
    applyCachingStrategy [
      ⟨.user, .blocks [.text "a" true, .text "b" true]⟩,
      ⟨.assistant, .blocks [.text "c" true]⟩,
      ⟨.user, .blocks [.text "d" false]⟩] =
      markLastMessageBlock (unmarkLastMarked ([
        ⟨.user, .blocks [.text "a" true, .text "b" true]⟩,
        ⟨.assistant, .blocks [.text "c" true]⟩,
        ⟨.user, .blocks [.text "d" false]⟩].map normMessage)) :=
  ⟨by decide,
   (claim6_amended_strategy _ (by decide) (by decide)).2.2.1 (by decide)⟩

/-- C7: a `tool_use` block whose registered tool's `invoke` throws produces
a `tool_result` user message with `is_error = true` and the thrown error's
message as content, and the loop continues into the next turn with that
message appended rather than aborting. -/
theorem claim7_tool_error_recoverable (tools : List AITool) (r : Response)
    (rest : List Response) (msgs : List Message) (sys : List TextBlock)
    (pre post : List ResponseBlock) (id nm e : String)
    (input : List (String × Json)) (t : AITool)
    (hblocks : r.content = pre ++ .tool_use id nm input :: post)
    (hreg : allRegistered tools r.content = true)
    (hlookup : lookupTool tools nm = some t)
    (hinv : t.invoke input = .error e) :
    (⟨.user, .blocks [.tool_result id e (some true) false]⟩ : Message) ∈
      turnToolMessages tools r.content ∧
    (runModel tools (r :: rest) msgs sys).1 =
      (runModel tools rest
        (msgs ++ (assistantMessage r :: turnToolMessages tools r.content))
        (processSystemPrompts sys ++ turnSystemSegments tools r.content)).1 := by
  have hcont : hasToolUse r.content = true := by
    rw [hblocks]
    exact hasToolUse_of_split pre post id nm input
  have hd := dispatchBlocks_ok tools r.content hreg
  rw [hcont] at hd
  constructor
  · have hu : (ResponseBlock.tool_use id nm input) ∈ r.content := by
      rw [hblocks]
      simp
    have houtcome : toolOutcome tools (.tool_use id nm input) =
        some ⟨e, id, true, none⟩ := by
      simp [toolOutcome, hlookup, hinv]
    exact List.mem_map.mpr ⟨⟨e, id, true, none⟩,
      List.mem_filterMap.mpr ⟨_, hu, houtcome⟩, rfl⟩
  · rw [runModel_step_continue tools r rest msgs sys _ _ hd]

/-- C7 (witness): a failing tool on a one-block turn. -/
theorem claim7_witness :
    (⟨.user, .blocks [.tool_result "F" "boom" (some true) false]⟩ : Message) ∈
      turnToolMessages [⟨"w7t", fun _ => Except.error "boom"⟩]
        [ResponseBlock.tool_use "F" "w7t" []] :=
  (claim7_tool_error_recoverable [⟨"w7t", fun _ => Except.error "boom"⟩]
    ⟨[ResponseBlock.tool_use "F" "w7t" []]⟩ [] [] [] [] [] "F" "w7t" "boom" []
    ⟨"w7t", fun _ => Except.error "boom"⟩ rfl (by decide) rfl rfl).1

/-- C8: a `tool_use` block naming an unregistered tool makes the loop throw
`Tool <name> not found` — the run is fatal, cannot terminate with a state
(so the error is never converted into an `is_error` tool result), and the
surrounding edit command reports `Error: Tool <name> not found` and exits
with status 1. -/
theorem claim8_unknown_tool_fatal (tools : List AITool) (r : Response)
    (rest : List Response) (msgs : List Message) (sys : List TextBlock)
    (pre post : List ResponseBlock) (id nm : String)
    (input : List (String × Json))
    (hblocks : r.content = pre ++ .tool_use id nm input :: post)
    (hpre : allRegistered tools pre = true)
    (hlookup : lookupTool tools nm = none) :
    (runModel tools (r :: rest) msgs sys).1 =
      .fatal ("Tool " ++ nm ++ " not found") ∧
    (∀ ms2 sys2, (runModel tools (r :: rest) msgs sys).1 ≠ .done ms2 sys2) ∧
    editCommandOutcome (runModel tools (r :: rest) msgs sys).1 =
      ⟨some 1, some ("Error: " ++ ("Tool " ++ nm ++ " not found"))⟩ := by
  have hd := dispatchBlocks_unregistered tools id nm input post hlookup pre hpre
  rw [← hblocks] at hd
  rw [runModel_step_fatal tools r rest msgs sys _ hd]
  exact ⟨rfl, fun ms2 sys2 hcon => LoopResult.noConfusion hcon, rfl⟩

/-- C8 (witness): a turn invoking the unregistered tool `ghost`. -/
theorem claim8_witness :
    (runModel [] [⟨[ResponseBlock.tool_use "G" "ghost" []]⟩] [] []).1 =
      .fatal ("Tool " ++ "ghost" ++ " not found") :=
  (claim8_unknown_tool_fatal [] ⟨[ResponseBlock.tool_use "G" "ghost" []]⟩
    [] [] [] [] [] "G" "ghost" [] rfl (by decide) rfl).1

/-- C9: session loading is total and never fatal: no path or a missing file
yields `undefined` silently; unparsable JSON and schema-invalid JSON yield
`undefined` with an informational message, so the caller starts fresh; only
a schema-valid file yields a session. -/
theorem claim9_load_never_fatal (p : String) (hp : p ≠ "") (j : Json) :
    (∀ f, loadSession none f = (none, [])) ∧
    loadSession (some p) .missing = (none, []) ∧
    loadSession (some p) .unparsable =
      (none, ["Error parsing session file " ++ p ++ ", starting fresh"]) ∧
    (parseMessageResult j = none →
      loadSession (some p) (.content j) =
        (none, ["Invalid session format in " ++ p ++ ", starting fresh"])) ∧
    (∀ s, parseMessageResult j = some s →
      loadSession (some p) (.content j) =
        (some s, ["Session loaded from " ++ p])) := by
  refine ⟨fun f => rfl, ?_, ?_, ?_, ?_⟩
  · simp [loadSession, hp]
  · simp [loadSession, hp]
  · intro hparse
    simp [loadSession, hp, hparse]
  · intro s hparse
    simp [loadSession, hp, hparse]

/-- C9 (witness): an unparsable file and a schema-invalid file (JSON
`null`) both load as `undefined` with the logged message. -/
theorem claim9_witness :
    loadSession (some "sess.json") .unparsable =
      (none, ["Error parsing session file " ++ "sess.json" ++
        ", starting fresh"]) ∧
    loadSession (some "sess.json") (.content .null) =
      (none, ["Invalid session format in " ++ "sess.json" ++
        ", starting fresh"]) :=
  ⟨(claim9_load_never_fatal "sess.json" (by decide) .null).2.2.1,
   (claim9_load_never_fatal "sess.json" (by decide) .null).2.2.2.1 rfl⟩

/-- C10: whenever `createMessage` terminates, the returned state's
system-prompt list carries a cache marker on exactly its last segment and
on no other — in particular the returned state is not marker-free. -/
theorem claim10_returned_sysprompts_marked (basePrompt : String)
    (tools : List AITool) (responses : List Response)
    (o : CreateMessageOptions)
    (hsys : initialSystemPrompts basePrompt o ≠ []) :
    ∀ ms2 sys2, (createMessage basePrompt tools responses o).1 = .done ms2 sys2 →
      markedExactlyLast sys2 = true ∧ sysMarkerCount sys2 = 1 ∧
      ∃ pseg ∈ sys2, pseg.cache_control = true := by
  intro ms2 sys2 h
  have hm := runModel_done_sysMarked tools responses (initialMessages o)
    (initialSystemPrompts basePrompt o) hsys ms2 sys2 h
  exact ⟨hm, sysMarkerCount_of_markedExactlyLast _ hm,
    markedExactlyLast_getLast _ hm⟩

/-- C10 (witness): a fresh one-turn `createMessage` run returns the base
prompt marked. -/
theorem claim10_witness :
    markedExactlyLast [(⟨"bp10", true⟩ : TextBlock)] = true ∧
    sysMarkerCount [(⟨"bp10", true⟩ : TextBlock)] = 1 :=
  ⟨((claim10_returned_sysprompts_marked "bp10" [] [⟨[.text "ok"]⟩]
      ⟨"hi", none, none⟩ (by decide))
      [⟨.user, .str "hi"⟩, ⟨.assistant, .blocks [.text "ok" false]⟩]
      [⟨"bp10", true⟩] rfl).1,
   ((claim10_returned_sysprompts_marked "bp10" [] [⟨[.text "ok"]⟩]
      ⟨"hi", none, none⟩ (by decide))
      [⟨.user, .str "hi"⟩, ⟨.assistant, .blocks [.text "ok" false]⟩]
      [⟨"bp10", true⟩] rfl).2.1⟩

end Clai
